import Mathlib

/-!
# EdgeCounter_t (graphslam-engine/EdgeCounter.h)

A shallow embedding of the class `EdgeCounter_t`: the per-type edge counters,
the loop-closure counter and the text-message parameters of the display.

Conventions of the embedding

* `std::map<string, T>` is a list of key/value pairs kept in strictly
  ascending key order (the order in which a `std::map` is iterated);
  `find` returning `end()` is `none`.
* `int` is `Int`.  Signed overflow is undefined in C++, so the embedding
  describes the executions in which no counter leaves the range of `int`.
* A member function that can throw yields an `Outcome` together with the
  object state it leaves behind: what was written before a `throw` stays
  written.  `Outcome.threw` carries the message handed to `THROW_EXCEPTION`.
* `assert` is taken as compiled in; a failed `assert` and the dereference of
  an `end()` iterator end the call without a return and without an exception
  (`Outcome.aborted`).
* `CDisplayWindow3D` is outside this class: the window is the list of the
  `addTextMessage` calls it has received, `NULL` is `none`.  A `double` offset
  is only stored and negated, it is carried as an `Int`.
-/

namespace EdgeCounter

/-! ## std::string comparison and std::map -/

/-- Lexicographic comparison of two character sequences, as
`std::string::operator<` (first differing character decides, a proper
beginning of a string is smaller than the string). -/
def charsLt : List Char → List Char → Bool
  | [], [] => false
  | [], _ :: _ => true
  | _ :: _, [] => false
  | a :: as, b :: bs =>
    if a < b then true else if b < a then false else charsLt as bs

/-- The key order of `std::map<string, T>`: `std::less<std::string>`. -/
def strLt (a b : String) : Bool := charsLt a.data b.data

namespace StdMap

/-- Lookup `m.find(k)`: the value stored under `k`, `none` for `end()`. -/
def find {β : Type} : List (String × β) → String → Option β
  | [], _ => none
  | (k', v') :: rest, k => if k' = k then some v' else find rest k

/-- Assignment `m[k] = v`: overwrites the entry of `k` or inserts a new entry
at its place in the key order. -/
def assign {β : Type} : List (String × β) → String → β → List (String × β)
  | [], k, v => [(k, v)]
  | (k', v') :: rest, k, v =>
    if strLt k k' then (k, v) :: (k', v') :: rest
    else if strLt k' k then (k', v') :: assign rest k v
    else (k, v) :: rest

/-- Increment through an iterator, `(search->second)++`, where `search` is the
result of `find(k)`. -/
def increment : List (String × Int) → String → List (String × Int)
  | [], _ => []
  | (k', v') :: rest, k =>
    if k' = k then (k', v' + 1) :: rest else (k', v') :: increment rest k

/-- The keys of the map in iteration order. -/
def keys {β : Type} (m : List (String × β)) : List String := m.map Prod.fst

end StdMap

/-! ## The class state -/

/-- One call `addTextMessage(x, y, text, color, font_name, font_size, style,
unique_index)` received by the display window (color and style are the
constants white and `NICE`). -/
structure TextMessage where
  x : Int
  y : Int
  text : String
  font_name : String
  font_size : Int
  unique_index : Int
deriving DecidableEq

/-- The data members of `EdgeCounter_t`. -/
structure EdgeCounter_t where
  m_win : Option (List TextMessage)
  m_name_to_edges_num : List (String × Int)
  m_num_loop_closures : Int
  m_name_to_offset_y : List (String × Int)
  m_name_to_text_index : List (String × Int)
  m_font_name : String
  m_font_size : Int
  m_has_read_textmessage_params : Bool
deriving DecidableEq

/-- How a call of a member function ends. -/
inductive Outcome where
  | returned
  | threw (what : String)
  | aborted
deriving DecidableEq

namespace EdgeCounter_t

/-- Member `clearAllEdges()`. -/
def clearAllEdges (s : EdgeCounter_t) : EdgeCounter_t :=
  { s with
    m_num_loop_closures := 0
    m_name_to_edges_num := []
    m_name_to_offset_y := []
    m_name_to_text_index := []
    m_has_read_textmessage_params := false }

/-- Member `initEdgeCounter_t()`. -/
def initEdgeCounter_t (s : EdgeCounter_t) : EdgeCounter_t :=
  { s.clearAllEdges with m_has_read_textmessage_params := false }

/-- The constructor `EdgeCounter_t(win)`.  The constructor leaves
`m_font_size` uninitialised: `font_size0` is whatever value it holds. -/
def construct (win : Option (List TextMessage)) (font_size0 : Int) : EdgeCounter_t :=
  initEdgeCounter_t
    { m_win := win
      m_name_to_edges_num := []
      m_num_loop_closures := 0
      m_name_to_offset_y := []
      m_name_to_text_index := []
      m_font_name := ""
      m_font_size := font_size0
      m_has_read_textmessage_params := false }

/-- Member `getLoopClosureEdges()`. -/
def getLoopClosureEdges (s : EdgeCounter_t) : Int := s.m_num_loop_closures

/-- Member `getTotalNumOfEdges()`: the loop `sum += it->second`. -/
def getTotalNumOfEdges (s : EdgeCounter_t) : Int :=
  s.m_name_to_edges_num.foldl (fun sum it => sum + it.2) 0

/-- Member `getNumForEdgeType(name)`. -/
def getNumForEdgeType (s : EdgeCounter_t) (name : String) : Except String Int :=
  match StdMap.find s.m_name_to_edges_num name with
  | some second => .ok second
  | none => .error "No edge with such name exists"

/-- Member `getNumForEdgeType(name, total_num)`: the value written to
`*total_num` paired with the object, or the exception. -/
def getNumForEdgeTypeOut (s : EdgeCounter_t) (name : String) :
    Except String (Int × EdgeCounter_t) :=
  match StdMap.find s.m_name_to_edges_num name with
  | some second => .ok (second, s)
  | none => .error "No edge with such name exists"

/-- The loop of `updateTextMessages()` over `m_name_to_offset_y`: the window
after the calls of `addTextMessage`, `none` when a lookup
`find(name)->second` misses. -/
def textMessagesLoop (s : EdgeCounter_t) :
    List (String × Int) → List TextMessage → Option (List TextMessage)
  | [], win => some win
  | (name, offset_y) :: rest, win =>
    match StdMap.find s.m_name_to_text_index name,
          StdMap.find s.m_name_to_edges_num name with
    | some text_index, some edges_num =>
      textMessagesLoop s rest
        (win ++ [{ x := 5, y := -offset_y
                   text := "  " ++ name ++ ": " ++ toString edges_num ++ "\n"
                   font_name := s.m_font_name, font_size := s.m_font_size
                   unique_index := text_index }])
    | _, _ => none

/-- Member `updateTextMessages()`. -/
def updateTextMessages (s : EdgeCounter_t) : Outcome × EdgeCounter_t :=
  match s.m_win with
  | none => (.aborted, s)
  | some win =>
    if s.m_has_read_textmessage_params = false then (.aborted, s)
    else if s.m_name_to_offset_y.length ≠ s.m_name_to_text_index.length then (.aborted, s)
    else
      match textMessagesLoop s s.m_name_to_offset_y win with
      | some win1 => (.returned, { s with m_win := some win1 })
      | none => (.aborted, s)

/-- The end of `addEdge`: the display is refreshed once the text-message
parameters have been read. -/
def addEdgeTail (s : EdgeCounter_t) : Outcome × EdgeCounter_t :=
  if s.m_has_read_textmessage_params then updateTextMessages s else (.returned, s)

/-- Member `addEdge(name, is_loop_closure, is_new)`. -/
def addEdge (s : EdgeCounter_t) (name : String) (is_loop_closure is_new : Bool) :
    Outcome × EdgeCounter_t :=
  match StdMap.find s.m_name_to_edges_num name with
  | some _ =>
    let s1 := { s with m_name_to_edges_num := StdMap.increment s.m_name_to_edges_num name }
    if is_new then
      (.threw "Specified edge type already exists but is_new is also specified!", s1)
    else if is_loop_closure then
      if is_new then
        (.threw "Both is_new and is_loop_closure flags are true. Exiting...", s1)
      else
        addEdgeTail { s1 with m_num_loop_closures := s1.m_num_loop_closures + 1 }
    else addEdgeTail s1
  | none =>
    if is_new then
      addEdgeTail { s with m_name_to_edges_num := StdMap.assign s.m_name_to_edges_num name 1 }
    else
      (.threw ("No edge with such name exists. " ++
        "Specify is_new parameter if you want to add it"), s)

/-- Member `addEdgeType(name)`. -/
def addEdgeType (s : EdgeCounter_t) (name : String) : Outcome × EdgeCounter_t :=
  match StdMap.find s.m_name_to_edges_num name with
  | some _ => (.threw ("Specified edge type " ++ name ++ " already exists"), s)
  | none => (.returned, { s with m_name_to_edges_num := StdMap.assign s.m_name_to_edges_num name 0 })

/-- The lines that the loop of `printEdgesSummary()` writes, one per entry of
`m_name_to_edges_num` in iteration order. -/
def summaryTypeLines (m : List (String × Int)) : List String :=
  m.map (fun it => "\t " ++ it.1 ++ " edges: " ++ toString it.2)

/-- Member `printEdgesSummary()`: the lines of the text sent to `cout`, each
ended by `endl` there. -/
def printEdgesSummary (s : EdgeCounter_t) : List String :=
  ["Summary of Edges: ",
   "---------------------------",
   "\t Total edges: " ++ toString s.getTotalNumOfEdges,
   "\t Loop closure edges: " ++ toString s.getLoopClosureEdges]
  ++ summaryTypeLines s.m_name_to_edges_num

/-- Member `setVisualizationWindow(win)`. -/
def setVisualizationWindow (s : EdgeCounter_t) (win : Option (List TextMessage)) :
    EdgeCounter_t :=
  { s with m_win := win }

/-- The loop of `setTextMessageParams` over the argument `name_to_offset_y`:
an unknown name throws, a name without a text index makes the lookup
`name_to_text_index.find(name)->second` miss. -/
def setTextMessageParamsLoop (name_to_text_index : List (String × Int)) :
    List (String × Int) → EdgeCounter_t → Outcome × EdgeCounter_t
  | [], s => (.returned, s)
  | (name, offset_y) :: rest, s =>
    match StdMap.find s.m_name_to_edges_num name with
    | none => (.threw ("Name " ++ name ++ " is not recognized as an Edge type.\n"), s)
    | some _ =>
      match StdMap.find name_to_text_index name with
      | none => (.aborted, s)
      | some text_index =>
        setTextMessageParamsLoop name_to_text_index rest
          { s with
            m_name_to_offset_y := StdMap.assign s.m_name_to_offset_y name offset_y
            m_name_to_text_index := StdMap.assign s.m_name_to_text_index name text_index }

/-- Member `setTextMessageParams(name_to_offset_y, name_to_text_index,
font_name, font_size)`. -/
def setTextMessageParams (s : EdgeCounter_t)
    (name_to_offset_y name_to_text_index : List (String × Int))
    (font_name : String) (font_size : Int) : Outcome × EdgeCounter_t :=
  match s.m_win with
  | none => (.aborted, s)
  | some _ =>
    if name_to_offset_y.length ≠ name_to_text_index.length then (.aborted, s)
    else
      match setTextMessageParamsLoop name_to_text_index name_to_offset_y s with
      | (.returned, s1) =>
        (.returned, { s1 with
          m_font_name := font_name
          m_font_size := font_size
          m_has_read_textmessage_params := true })
      | r => r

/-- The registered edge types: the keys of `m_name_to_edges_num`, in the
order in which the map is iterated. -/
def registeredTypes (s : EdgeCounter_t) : List String :=
  StdMap.keys s.m_name_to_edges_num

end EdgeCounter_t

/-! ## Sequences of calls -/

/-- A call of one of the three counting members. -/
inductive Call where
  | addEdgeType (name : String)
  | addEdge (name : String) (is_loop_closure is_new : Bool)
  | clearAllEdges
deriving DecidableEq

/-- One call on the object `s`: how it ends and the object afterwards. -/
def Call.exec (s : EdgeCounter_t) : Call → Outcome × EdgeCounter_t
  | .addEdgeType name => s.addEdgeType name
  | .addEdge name is_loop_closure is_new => s.addEdge name is_loop_closure is_new
  | .clearAllEdges => (.returned, s.clearAllEdges)

/-- The object after a sequence of calls whose exceptions are caught by the
caller; an aborted call is the last one. -/
def runCalls : EdgeCounter_t → List Call → EdgeCounter_t
  | s, [] => s
  | s, c :: cs =>
    match c.exec s with
    | (.aborted, s1) => s1
    | (_, s1) => runCalls s1 cs

/-- The names registered after a sequence of calls on `s`, listed in the order
in which they were registered: a call puts the names it has registered at the
end of `order` and takes out the names it has removed. -/
def registrationOrder : EdgeCounter_t → List String → List Call → List String
  | _, order, [] => order
  | s, order, c :: cs =>
    let r := c.exec s
    let order1 :=
      order.filter (fun t => r.2.registeredTypes.contains t)
        ++ r.2.registeredTypes.filter (fun t => !s.registeredTypes.contains t)
    match r.1 with
    | .aborted => order1
    | _ => registrationOrder r.2 order1 cs

/-- The invariant of `std::map`: the entries are in strictly ascending key
order. -/
def StdMap.Ordered {β : Type} (m : List (String × β)) : Prop :=
  m.Pairwise (fun a b => strLt a.1 b.1 = true)

/-- A counter in use: two registered edge types with 3 and 7 edges, one loop
closure, a window and text-message parameters for both types. -/
def exampleCounter : EdgeCounter_t :=
  { m_win := some []
    m_name_to_edges_num := [("ICP2D", 3), ("odometry", 7)]
    m_num_loop_closures := 1
    m_name_to_offset_y := [("ICP2D", 20), ("odometry", 40)]
    m_name_to_text_index := [("ICP2D", 1), ("odometry", 2)]
    m_font_name := "mono"
    m_font_size := 12
    m_has_read_textmessage_params := true }

instance StdMap.decidableOrdered {β : Type} (m : List (String × β)) :
    Decidable (StdMap.Ordered m) := by
  unfold StdMap.Ordered; infer_instance

end EdgeCounter

namespace EdgeCounter

/-! ## Counting the calls that returned -/

/-- The calls of a plain counting session: `addEdgeType(name)` and
`addEdge(name, is_loop_closure)` with `is_new` left at `false`. -/
inductive CountingCall where
  | addEdgeType (name : String)
  | addEdge (name : String) (is_loop_closure : Bool)
deriving DecidableEq

/-- The member call that a counting call stands for. -/
def CountingCall.toCall : CountingCall → Call
  | .addEdgeType name => Call.addEdgeType name
  | .addEdge name is_loop_closure => Call.addEdge name is_loop_closure false

/-- Is `c`, which ended as `o`, an `addEdge` call with the name `t` that
returned normally: 1 if so, 0 otherwise. -/
def returnedAddEdge (t : String) (c : Call) (o : Outcome) : Nat :=
  match c, o with
  | .addEdge name _ _, .returned => if name = t then 1 else 0
  | _, _ => 0

/-- Is `c`, which ended as `o`, an `addEdge` call with `is_loop_closure =
true` that returned normally: 1 if so, 0 otherwise. -/
def returnedLoopClosureAddEdge (c : Call) (o : Outcome) : Nat :=
  match c, o with
  | .addEdge _ true _, .returned => 1
  | _, _ => 0

/-- The number of `addEdge` calls with the name `t` that returned normally
when the sequence of calls is run on `s`. -/
def returnedAddEdges (t : String) : EdgeCounter_t → List Call → Nat
  | _, [] => 0
  | s, c :: cs =>
    returnedAddEdge t c (c.exec s).1
    + (match (c.exec s).1 with
      | .aborted => 0
      | _ => returnedAddEdges t (c.exec s).2 cs)

/-- The number of `addEdge` calls with `is_loop_closure = true`, over all
names, that returned normally when the sequence of calls is run on `s`. -/
def returnedLoopClosureAddEdges : EdgeCounter_t → List Call → Nat
  | _, [] => 0
  | s, c :: cs =>
    returnedLoopClosureAddEdge c (c.exec s).1
    + (match (c.exec s).1 with
      | .aborted => 0
      | _ => returnedLoopClosureAddEdges (c.exec s).2 cs)

/-! ## Sequences of calls that include the display parameters -/

/-- A call of a counting member or of `setTextMessageParams`. -/
inductive DisplayCall where
  | counting (c : Call)
  | setTextMessageParams (name_to_offset_y name_to_text_index : List (String × Int))
      (font_name : String) (font_size : Int)
deriving DecidableEq

/-- One call on the object `s`: how it ends and the object afterwards. -/
def DisplayCall.exec (s : EdgeCounter_t) : DisplayCall → Outcome × EdgeCounter_t
  | .counting c => c.exec s
  | .setTextMessageParams name_to_offset_y name_to_text_index font_name font_size =>
    s.setTextMessageParams name_to_offset_y name_to_text_index font_name font_size

/-- The object after a sequence of calls whose exceptions are caught by the
caller; an aborted call is the last one. -/
def runDisplayCalls : EdgeCounter_t → List DisplayCall → EdgeCounter_t
  | s, [] => s
  | s, c :: cs =>
    match c.exec s with
    | (.aborted, s1) => s1
    | (_, s1) => runDisplayCalls s1 cs

end EdgeCounter

/-!
# Symmetric matrices on an archive (mrpt/math/matrix_serialization.h)

The archive is the list of the scalars written to it: `out << x` puts `x` at
the end, `in >> x` takes the first scalar and throws at the end of the
archive.  A matrix `MAT` is given by its dimensions and its coefficients
`m(r, c)`; the index type of `rows()` and `cols()` is signed, so that
`N - 1` is not above `N` when `N` is 0.
-/

namespace MatrixSerialization

/-- A matrix: `rows()`, `cols()` and the coefficients `m(r, c)`. -/
structure Mat (α : Type) where
  rows : Nat
  cols : Nat
  coeff : Nat → Nat → α

/-- The assignment `m(r, c) = x`. -/
def Mat.set {α : Type} (m : Mat α) (r c : Nat) (x : α) : Mat α :=
  { m with coeff := fun i j => if i = r ∧ j = c then x else m.coeff i j }

/-- The read `in >> x`: the scalar and the rest of the archive. -/
def readScalar {α : Type} : List α → Except String (α × List α)
  | [] => .error "End of archive"
  | x :: rest => .ok (x, rest)

/-- Function `serializeSymmetricMatrixTo(m, out)`: the archive afterwards. -/
def serializeSymmetricMatrixTo {α : Type} (m : Mat α) (out : List α) :
    Except String (List α) :=
  if m.rows ≠ m.cols then .error "ASSERT_EQUAL_(m.rows(), m.cols())"
  else
    let N := m.cols
    let out1 := (List.range N).foldl (fun out i => out ++ [m.coeff i i]) out
    .ok ((List.range (N - 1)).foldl
      (fun out r =>
        (List.range' (r + 1) (N - (r + 1))).foldl (fun out c => out ++ [m.coeff r c]) out)
      out1)

/-- Function `deserializeSymmetricMatrixFrom(m, in)`: the matrix and the
archive afterwards. -/
def deserializeSymmetricMatrixFrom {α : Type} (m : Mat α) (inp : List α) :
    Except String (Mat α × List α) :=
  if m.rows ≠ m.cols then .error "ASSERT_EQUAL_(m.rows(), m.cols())"
  else
    let N := m.cols
    (List.range N).foldlM
      (fun (s : Mat α × List α) i =>
        (readScalar s.2).bind (fun xr => .ok (s.1.set i i xr.1, xr.2)))
      (m, inp)
    |>.bind (fun s1 =>
      (List.range (N - 1)).foldlM
        (fun (s : Mat α × List α) r =>
          (List.range' (r + 1) (N - (r + 1))).foldlM
            (fun (s : Mat α × List α) c =>
              (readScalar s.2).bind
                (fun xr => .ok ((s.1.set c r xr.1).set r c xr.1, xr.2)))
            s)
        s1)

/-- The positions `(r, c)` in the order in which the two functions visit them:
the diagonal, then the rows of the strict upper triangle. -/
def symmetricOrder (N : Nat) : List (Nat × Nat) :=
  (List.range N).map (fun i => (i, i))
  ++ (List.range (N - 1)).flatMap
      (fun r => (List.range' (r + 1) (N - (r + 1))).map (fun c => (r, c)))

/-- Reading the positions of a list one after the other, each scalar stored
at `(c, r)` and at `(r, c)`. -/
def readEntries {α : Type} :
    List (Nat × Nat) → Mat α × List α → Except String (Mat α × List α)
  | [], s => .ok s
  | (r, c) :: ps, s =>
    (readScalar s.2).bind
      (fun xr => readEntries ps ((s.1.set c r xr.1).set r c xr.1, xr.2))

/-- A symmetric 3 x 3 matrix of integers, `m(r, c) = 10 * min(r, c) + max(r, c)`. -/
def exampleSymmetric : Mat Int :=
  { rows := 3, cols := 3, coeff := fun r c => 10 * (min r c : Nat) + (max r c : Nat) }

end MatrixSerialization

/-!
# The ICP goodness edge-registration decider (CICPGoodnessERD.h)

`CICPGoodnessERD.h` declares the decider; the bodies of its member functions
are in `CICPGoodnessERD_impl.h`, which is not part of the sources at hand.
The definitions of this section are therefore modelled from the
specification (sections 3, 4.1 to 4.4, 6 and 7).  The ledger of the decider
is the `EdgeCounter_t` of the first section.  A `double` is a rational
number: the decider only compares, subtracts and squares them.
-/

namespace ICPGoodnessERD

open EdgeCounter

/-- Modelled from the spec: the position of a node's pose estimate (section
3, "estimated pose (2D or 3D)"; `z` is 0 in 2D).  The orientation is left out:
the distance of section 4.2 is position-only by default. -/
structure Pose where
  x : ℚ
  y : ℚ
  z : ℚ

/-- Modelled from the spec: an edge of the pose graph (section 3): the ordered
pair of node ids, the relative-pose constraint, the type label and the
loop-closure mark of section 4.3, step 7. -/
structure Edge where
  fromNodeId : Nat
  toNodeId : Nat
  relativePose : Pose
  typeLabel : String
  loopClosure : Bool

/-- Modelled from the spec: the view of the pose graph (section 6): the
current pose of every node and the edges appended so far. -/
structure PoseGraph where
  nodes : List (Nat × Pose)
  edges : List Edge

/-- Modelled from the spec: `currentPose(nodeId)` of section 6, `none` for a
node that does not exist. -/
def PoseGraph.currentPose (g : PoseGraph) (nodeId : Nat) : Option Pose :=
  (g.nodes.find? (fun n => n.1 = nodeId)).map Prod.snd

/-- Modelled from the spec: what the scan matcher returns (section 6):
`(refinedPose, goodness, success)`. -/
structure MatchResult where
  refinedPose : Pose
  goodness : ℚ
  success : Bool

/-- Modelled from the spec: the configuration surface of section 6, with the
member names of `TParams` in `CICPGoodnessERD.h`. -/
structure TParams where
  ICP_max_distance : ℚ
  ICP_goodness_thresh : ℚ
  LC_min_nodeid_diff : Int

/-- Modelled from the spec: the two modalities of section 4.1. -/
inductive Modality where
  | scan2D
  | scan3D
deriving DecidableEq

/-- Modelled from the spec: the sensor payload of an event as the classifier
of section 4.1 sees it: a 2D range scan, a 3D range scan, or neither. -/
inductive Payload where
  | rangeScan2D
  | rangeScan3D
  | unrecognized
deriving DecidableEq

/-- Modelled from the spec: the state of the decider (sections 3 and 4.3).
`invalid` is the terminal state `Invalid`; `crossed counter threshold` is the
test "the failure counter crosses the configured threshold", which the
specification words both as "exceeds" and, in scenario D, as reached. -/
structure CICPGoodnessERD_t where
  params : TParams
  edgeTypeName : String
  m_graph : PoseGraph
  ledger : EdgeCounter_t
  invalid : Bool
  m_consecutive_invalid_format_instances : Nat
  m_consecutive_invalid_format_instances_thres : Nat
  crossed : Nat → Nat → Bool
  modality : Option Modality
  pending : Option (Nat × Modality)

/-- Modelled from the spec: the square of the Euclidean distance between two
positions (section 4.2). -/
def distSq (p q : Pose) : ℚ :=
  (q.x - p.x) ^ 2 + (q.y - p.y) ^ 2 + (q.z - p.z) ^ 2

/-- Modelled from the spec: "distance ≤ maxDistance" of section 4.2, decided
on the squares. -/
def withinDistance (p q : Pose) (distance : ℚ) : Bool :=
  decide (0 ≤ distance ∧ distSq p q ≤ distance ^ 2)

/-- Modelled from the spec: `getNearbyNodesOf(nodes_set, cur_nodeID,
distance)`, the `findCandidates` of section 4.2: the ids of the nodes other
than `cur_nodeID` whose current pose is within `distance` of the current
pose of `cur_nodeID`; a node that does not exist is a usage error (section
7). -/
def getNearbyNodesOf (g : PoseGraph) (cur_nodeID : Nat) (distance : ℚ) :
    Except String (List Nat) :=
  match g.currentPose cur_nodeID with
  | none => .error "node does not exist"
  | some p =>
    .ok ((g.nodes.filter
      (fun n => decide (n.1 ≠ cur_nodeID) && withinDistance p n.2 distance)).map Prod.fst)

/-- Modelled from the spec: the attempt order of section 4.2: ascending
distance, then ascending node id for equal distances. -/
def attemptBefore (g : PoseGraph) (p : Pose) (a b : Nat) : Bool :=
  match g.currentPose a, g.currentPose b with
  | some pa, some pb =>
    decide (distSq p pa < distSq p pb ∨ (distSq p pa = distSq p pb ∧ a ≤ b))
  | _, _ => decide (a ≤ b)

/-- Modelled from the spec: the candidates in the order in which they are
attempted (section 4.3, steps 3 to 5). -/
def orderCandidates (g : PoseGraph) (p : Pose) (nodes_set : List Nat) : List Nat :=
  nodes_set.insertionSort (fun a b => attemptBefore g p a b = true)

/-- Modelled from the spec: the acceptance test of section 4.3, step 6:
success is true and goodness ≥ `ICP_goodness_thresh`. -/
def accepts (params : TParams) (r : MatchResult) : Bool :=
  r.success && decide (params.ICP_goodness_thresh ≤ r.goodness)

/-- Modelled from the spec: the loop-closure condition of section 4.3, steps 4
and 7: the node-id gap is ≥ `LC_min_nodeid_diff`. -/
def isLoopClosure (params : TParams) (fromNodeId toNodeId : Nat) : Bool :=
  decide (params.LC_min_nodeid_diff ≤ |(fromNodeId : Int) - (toNodeId : Int)|)

/-- Modelled from the spec: `registerNewEdge(from, to, rel_edge)`, step 7 of
section 4.3: the edge is written to the graph with the type label of the
decider and its loop-closure mark, and the ledger is incremented for the
edge type of the decider, with the loop-closure flag (`increment` of section
4.4); a failure of the ledger ends the operation (section 7). -/
def registerNewEdge (d : CICPGoodnessERD_t) (fromNodeId toNodeId : Nat) (rel_edge : Pose) :
    Outcome × CICPGoodnessERD_t :=
  let lc := isLoopClosure d.params fromNodeId toNodeId
  let g : PoseGraph :=
    { d.m_graph with
      edges := d.m_graph.edges ++
        [{ fromNodeId := fromNodeId, toNodeId := toNodeId, relativePose := rel_edge
           typeLabel := d.edgeTypeName, loopClosure := lc }] }
  let r := d.ledger.addEdge d.edgeTypeName lc false
  (r.1, { d with m_graph := g, ledger := r.2 })

/-- Modelled from the spec: `checkRegistrationCondition2D(nodes_set)`, steps
5 to 7 of section 4.3: every candidate, in attempt order, is matched against
the new node, and every accepted result is registered as an edge of its own,
from the new node to the candidate; `align c` is the answer of the scan
matcher for the candidate `c`. -/
def checkRegistrationCondition (align : Nat → MatchResult) (newNodeId : Nat) :
    List Nat → CICPGoodnessERD_t → Outcome × CICPGoodnessERD_t
  | [], d => (.returned, d)
  | c :: cs, d =>
    if accepts d.params (align c) then
      match registerNewEdge d newNodeId c (align c).refinedPose with
      | (.returned, d1) => checkRegistrationCondition align newNodeId cs d1
      | r => r
    else checkRegistrationCondition align newNodeId cs d

/-- Modelled from the spec: `onNodeInserted(newNodeId)` of section 4.3, steps
1 to 8.  Step 4 takes no candidate away from the matching: the node-id gap
only decides the loop-closure mark of an accepted edge. -/
def onNodeInserted (d : CICPGoodnessERD_t) (newNodeId : Nat) (align : Nat → MatchResult) :
    Outcome × CICPGoodnessERD_t :=
  if d.invalid then (.returned, d)
  else
    match d.pending with
    | none => (.returned, d)
    | some (node, _) =>
      if node ≠ newNodeId then (.returned, d)
      else
        match d.m_graph.currentPose newNodeId,
              getNearbyNodesOf d.m_graph newNodeId d.params.ICP_max_distance with
        | some p, .ok nodes_set =>
          match checkRegistrationCondition align newNodeId
              (orderCandidates d.m_graph p nodes_set) d with
          | (.returned, d1) => (.returned, { d1 with pending := none })
          | r => r
        | _, _ => (.threw "node does not exist", d)

/-- Modelled from the spec: `classify(action, sensoryFrame, observation)` of
section 4.1 together with the transition to `Invalid` of section 4.3 (the
`checkIfInvalidDataset` of the header): `node` is the node the observation is
associated with.  Once `Invalid`, the event is ignored (scenario D). -/
def classify (d : CICPGoodnessERD_t) (payload : Payload) (node : Nat) : CICPGoodnessERD_t :=
  if d.invalid then d
  else
    match payload, d.modality with
    | .unrecognized, _ =>
      let failures := d.m_consecutive_invalid_format_instances + 1
      { d with
        m_consecutive_invalid_format_instances := failures
        invalid := d.crossed failures d.m_consecutive_invalid_format_instances_thres }
    | .rangeScan2D, some .scan3D => d
    | .rangeScan3D, some .scan2D => d
    | .rangeScan2D, _ =>
      { d with
        modality := some .scan2D
        m_consecutive_invalid_format_instances := 0
        pending := some (node, .scan2D) }
    | .rangeScan3D, _ =>
      { d with
        modality := some .scan3D
        m_consecutive_invalid_format_instances := 0
        pending := some (node, .scan3D) }

/-- Modelled from the spec: an event delivered to `updateDeciderState`: a
payload to classify or the insertion of a node, with the answers of the scan
matcher for that insertion. -/
inductive Event where
  | classify (payload : Payload) (node : Nat)
  | nodeInserted (newNodeId : Nat) (align : Nat → MatchResult)

/-- Modelled from the spec: `updateDeciderState(action, observations,
observation)`: one event runs to completion (section 5). -/
def updateDeciderState (d : CICPGoodnessERD_t) : Event → Outcome × CICPGoodnessERD_t
  | .classify payload node => (.returned, classify d payload node)
  | .nodeInserted newNodeId align => onNodeInserted d newNodeId align

/-- Modelled from the spec: the decider after a sequence of events, each
delivered after the previous one has completed (section 5). -/
def runEvents : CICPGoodnessERD_t → List Event → CICPGoodnessERD_t
  | d, [] => d
  | d, e :: es => runEvents (updateDeciderState d e).2 es

/-- A decider for scenarios A to C: threshold 0.6, search radius 5 m,
`LC_min_nodeid_diff` = 50, nodes 10, 30, 70 and 71, a pending 2D scan at
node 71 and the edge type `ICP2D` registered in the ledger. -/
def exampleDecider : CICPGoodnessERD_t :=
  { params := { ICP_max_distance := 5, ICP_goodness_thresh := 3 / 5, LC_min_nodeid_diff := 50 }
    edgeTypeName := "ICP2D"
    m_graph :=
      { nodes := [(10, ⟨0, 0, 0⟩), (30, ⟨9, 0, 0⟩), (70, ⟨1, 1, 0⟩), (71, ⟨2, 0, 0⟩)]
        edges := [] }
    ledger := ((EdgeCounter_t.construct none 0).addEdgeType "ICP2D").2
    invalid := false
    m_consecutive_invalid_format_instances := 0
    m_consecutive_invalid_format_instances_thres := 5
    crossed := fun counter threshold => decide (threshold ≤ counter)
    modality := some .scan2D
    pending := some (71, .scan2D) }

/-- The answers of the scan matcher in the examples: goodness 0.8 against node
10, goodness 0.6 against node 70, goodness 0.5 against every other node. -/
def exampleAlign (c : Nat) : MatchResult :=
  { refinedPose := ⟨0, 0, 0⟩
    goodness := if c = 10 then 4 / 5 else if c = 70 then 3 / 5 else 1 / 2
    success := true }

end ICPGoodnessERD

/-!
# Line features (mrpt/vision, CFeatureExtraction_LSD_BLD.cpp)

The function `extractFeaturesLSD` on the lines found by the OpenCV detector:
the sorting loop and the selection loop.

* The type `F` stands for `float`; the sorting compares `lineLength` with the
  order of `F`, taken as total.  `toInt` is the conversion of a `Point2f`
  coordinate to a `Point` coordinate (`cv::saturate_cast<int>`).
* The centre `kp.pt` is the integer `(pt1 + pt2) / 2` held in a `float`; the
  borders of the patch are computed from it in `float` and cast to `int`,
  which is exact for pixel coordinates (below `2^24`): they are integers here.
* `i`, `cont` and `nMax` are `unsigned int`: they are taken modulo `2^32`.
  `nextID` is a 64-bit identifier started from a 32-bit one and cannot wrap.
* The selection loop is given fuel: `none` is "no result" (the fuel is used
  up, or `cv_line[i]` is read past the end).
-/

namespace FeatureExtractionLSD

/-- The members of `cv::line_descriptor::KeyLine` that the function reads. -/
structure KeyLine (F : Type) where
  startPointX : F
  startPointY : F
  endPointX : F
  endPointY : F
  lineLength : F
  response : F
  octave : Int
deriving DecidableEq

/-- The members of `CFeature` that the function writes; `patch` is the window
`(col, row, width, height)` handed to `extract_patch`. -/
structure CFeature (F : Type) where
  type : String
  ID : Nat
  x : Int
  y : Int
  x2 : Int × Int
  y2 : Int × Int
  response : F
  octave : Int
  patch : Option (Int × Int × Nat × Nat)
deriving DecidableEq

/-- The members of `CFeatureExtraction::TOptions` that the function reads. -/
structure TOptions where
  patchSize : Nat
  addNewFeatures : Bool
deriving DecidableEq

/-- The body of the inner sorting loop: `cv_line.at(i)` and `cv_line.at(j)`
are exchanged when the line at `j` is longer. -/
def sortInner {F : Type} [LinearOrder F] (i : Nat) (cv_line : List (KeyLine F)) (j : Nat) :
    List (KeyLine F) :=
  match cv_line[i]?, cv_line[j]? with
  | some at_i, some at_j =>
    if at_j.lineLength > at_i.lineLength then (cv_line.set i at_j).set j at_i
    else cv_line
  | _, _ => cv_line

/-- The sorting loops `for i < N`, `for j = i + 1 .. N - 1`. -/
def sortByLineLength {F : Type} [LinearOrder F] (cv_line : List (KeyLine F)) :
    List (KeyLine F) :=
  (List.range cv_line.length).foldl
    (fun v i => (List.range' (i + 1) (cv_line.length - (i + 1))).foldl (sortInner i) v)
    cv_line

/-- The variables of the selection loop. -/
structure LoopState (F : Type) where
  i : Nat
  cont : Nat
  nextID : Nat
  feats : List (CFeature F)
deriving DecidableEq

/-- The test "the patch lies in the image" on the centre `(x, y)`. -/
def patchInImage (options : TOptions) (imgW imgH : Nat) (x y : Int) : Bool :=
  let size_2 : Int := (options.patchSize / 2 : Nat)
  let xBorderInf := x - size_2
  let xBorderSup := x + size_2
  let yBorderInf := y - size_2
  let yBorderSup := y + size_2
  decide (xBorderSup < (imgW : Int) ∧ xBorderInf > 0 ∧ yBorderSup < (imgH : Int) ∧ yBorderInf > 0)

/-- The body of the selection loop for the line `kl = cv_line[i]`. -/
def selectBody {F : Type} (toInt : F → Int) (options : TOptions) (imgW imgH : Nat)
    (kl : KeyLine F) (s : LoopState F) : LoopState F :=
  if kl.octave = 0 then
    let pt1 : Int × Int := (toInt kl.startPointX, toInt kl.startPointY)
    let pt2 : Int × Int := (toInt kl.endPointX, toInt kl.endPointY)
    let x := Int.tdiv (pt1.1 + pt2.1) 2
    let y := Int.tdiv (pt1.2 + pt2.2) 2
    let i1 := (s.i + 1) % 2 ^ 32
    if patchInImage options imgW imgH x y = false then
      { s with i := i1 }
    else
      let offset : Int := (options.patchSize / 2 : Nat) + 1
      let ft : CFeature F :=
        { type := "featLSD", ID := s.nextID, x := x, y := y
          x2 := (pt1.1, pt2.1), y2 := (pt1.2, pt2.2)
          response := kl.response, octave := kl.octave
          patch :=
            if options.patchSize > 0
            then some (x - offset, y - offset, options.patchSize, options.patchSize)
            else none }
      { i := i1, cont := (s.cont + 1) % 2 ^ 32, nextID := s.nextID + 1
        feats := s.feats ++ [ft] }
  else { s with cont := (s.cont + 1) % 2 ^ 32 }

/-- The selection loop `while (cont != nMax && i != N)`. -/
def selectLoop {F : Type} (toInt : F → Int) (options : TOptions) (imgW imgH : Nat)
    (cv_line : List (KeyLine F)) (nMax : Nat) : Nat → LoopState F → Option (LoopState F)
  | fuel, s =>
    if s.cont ≠ nMax ∧ s.i ≠ cv_line.length then
      match fuel with
      | 0 => none
      | fuel + 1 =>
        match cv_line[s.i]? with
        | none => none
        | some kl =>
          selectLoop toInt options imgW imgH cv_line nMax fuel
            (selectBody toInt options imgW imgH kl s)
    else some s

/-- The value of `nMax`. -/
def nMaxOf (N nDesiredFeatures : Nat) : Nat :=
  if nDesiredFeatures ≠ 0 ∧ N > nDesiredFeatures then nDesiredFeatures else N % 2 ^ 32

/-- Function `extractFeaturesLSD(inImg, feats, init_ID, nDesiredFeatures)`
after the detection: `detected` is the content of `cv_line` left by
`bd->detect`, `imgW` and `imgH` are the width and height of `inImg`; the
result is the list `feats` afterwards. -/
def extractFeaturesLSD {F : Type} [LinearOrder F] (toInt : F → Int) (options : TOptions)
    (imgW imgH : Nat) (detected : List (KeyLine F)) (feats : List (CFeature F))
    (init_ID nDesiredFeatures : Nat) (fuel : Nat) : Option (List (CFeature F)) :=
  let cv_line := sortByLineLength detected
  let N := cv_line.length
  let nMax := nMaxOf N nDesiredFeatures
  let feats0 := if options.addNewFeatures then feats else []
  (selectLoop toInt options imgW imgH cv_line nMax fuel
    { i := 0, cont := 0, nextID := init_ID, feats := feats0 }).map (fun s => s.feats)

/-- A line of octave 0 from `(10, 10)` to `(20, 10)`, of length 10. -/
def exampleLine0 : KeyLine Int :=
  { startPointX := 10, startPointY := 10, endPointX := 20, endPointY := 10
    lineLength := 10, response := 7, octave := 0 }

/-- A line of octave 1 from `(30, 30)` to `(60, 30)`, of length 30. -/
def exampleLine1 : KeyLine Int :=
  { startPointX := 30, startPointY := 30, endPointX := 60, endPointY := 30
    lineLength := 30, response := 9, octave := 1 }

/-- A line of octave 0 from `(40, 50)` to `(40, 70)`, of length 20. -/
def exampleLine2 : KeyLine Int :=
  { startPointX := 40, startPointY := 50, endPointX := 40, endPointY := 70
    lineLength := 20, response := 8, octave := 0 }

end FeatureExtractionLSD

namespace EdgeCounter

/-! ## The order of the keys -/

theorem charsLt_irrefl (a : List Char) : charsLt a a = false := by
  induction a with
  | nil => rfl
  | cons x xs ih => simp [charsLt, ih]

theorem charsLt_trans : ∀ (a b c : List Char),
    charsLt a b = true → charsLt b c = true → charsLt a c = true
  | [], [], _, h, _ => by simp [charsLt] at h
  | [], _ :: _, [], _, h => by simp [charsLt] at h
  | [], _ :: _, _ :: _, _, _ => by simp [charsLt]
  | _ :: _, [], _, h, _ => by simp [charsLt] at h
  | _ :: _, _ :: _, [], _, h => by simp [charsLt] at h
  | x :: xs, y :: ys, z :: zs, h1, h2 => by
    have ih := charsLt_trans xs ys zs
    simp only [charsLt] at h1 h2 ⊢
    rcases lt_trichotomy x y with hxy | hxy | hxy
    · rcases lt_trichotomy y z with hyz | hyz | hyz
      · simp [lt_trans hxy hyz]
      · subst hyz; simp [hxy]
      · simp [hyz, lt_asymm hyz] at h2
    · subst hxy
      simp only [lt_irrefl, if_false] at h1
      rcases lt_trichotomy x z with hxz | hxz | hxz
      · simp [hxz]
      · subst hxz
        simp only [lt_irrefl, if_false] at h2 ⊢
        exact ih h1 h2
      · simp [hxz, lt_asymm hxz] at h2
    · simp [hxy, lt_asymm hxy] at h1

theorem charsLt_connex : ∀ (a b : List Char),
    charsLt a b = false → charsLt b a = false → a = b
  | [], [], _, _ => rfl
  | [], _ :: _, h, _ => by simp [charsLt] at h
  | _ :: _, [], _, h => by simp [charsLt] at h
  | x :: xs, y :: ys, h1, h2 => by
    simp only [charsLt] at h1 h2
    rcases lt_trichotomy x y with hxy | hxy | hxy
    · simp [hxy] at h1
    · subst hxy
      simp only [lt_irrefl, if_false] at h1 h2
      rw [charsLt_connex xs ys h1 h2]
    · simp [hxy] at h2

theorem strLt_irrefl (a : String) : strLt a a = false := charsLt_irrefl a.data

theorem strLt_trans {a b c : String} (h1 : strLt a b = true) (h2 : strLt b c = true) :
    strLt a c = true := charsLt_trans _ _ _ h1 h2

theorem strLt_connex {a b : String} (h1 : strLt a b = false) (h2 : strLt b a = false) :
    a = b := by
  have h := charsLt_connex a.data b.data h1 h2
  cases a; cases b; simp_all

theorem strLt_ne {a b : String} (h : strLt a b = true) : a ≠ b := by
  intro e
  subst e
  rw [strLt_irrefl] at h
  exact Bool.false_ne_true h

namespace StdMap

/-! ## Lookups after the map operations -/

theorem find_increment (m : List (String × Int)) (k k2 : String) :
    find (increment m k) k2 =
      if k2 = k then (find m k).map (fun v => v + 1) else find m k2 := by
  induction m with
  | nil => simp [increment, find]
  | cons p rest ih =>
    obtain ⟨k', v'⟩ := p
    by_cases h1 : k' = k
    · subst h1
      by_cases h2 : k2 = k'
      · subst h2; simp [increment, find]
      · have h3 : ¬ k' = k2 := fun e => h2 e.symm
        simp [increment, find, h2, h3]
    · by_cases h2 : k2 = k
      · subst h2
        simp only [increment, find, h1, if_false] at ih ⊢
        simpa using ih
      · simp only [increment, find, h1, h2, if_false] at ih ⊢
        rw [ih]

theorem keys_increment (m : List (String × Int)) (k : String) :
    keys (increment m k) = keys m := by
  induction m with
  | nil => rfl
  | cons p rest ih =>
    obtain ⟨k', v'⟩ := p
    by_cases h1 : k' = k
    · simp [increment, keys, h1]
    · simp only [keys] at ih
      simp [increment, keys, h1, ih]

theorem find_assign {β : Type} (m : List (String × β)) (k k2 : String) (v : β) :
    find (assign m k v) k2 = if k2 = k then some v else find m k2 := by
  induction m with
  | nil =>
    by_cases h : k2 = k
    · simp [assign, find, h]
    · have h3 : ¬ k = k2 := fun e => h e.symm
      simp [assign, find, h, h3]
  | cons p rest ih =>
    obtain ⟨k', v'⟩ := p
    simp only [assign]
    by_cases c1 : strLt k k' = true
    · simp only [c1, if_true]
      by_cases h : k2 = k
      · simp [find, h]
      · have h3 : ¬ k = k2 := fun e => h e.symm
        simp [find, h, h3]
    · by_cases c2 : strLt k' k = true
      · simp only [c1, c2, if_true, if_false, find]
        have hne : k' ≠ k := strLt_ne c2
        by_cases h : k2 = k
        · subst h
          simp [hne, ih]
        · simp [h, ih]
      · have e : k = k' := strLt_connex (by simpa using c1) (by simpa using c2)
        subst e
        simp only [c1, if_false, find]
        by_cases h : k2 = k
        · simp [h]
        · have h3 : ¬ k = k2 := fun e => h e.symm
          simp [h, h3]

theorem mem_keys_iff_find {β : Type} (m : List (String × β)) (k : String) :
    k ∈ keys m ↔ (find m k).isSome = true := by
  induction m with
  | nil => simp [keys, find]
  | cons p rest ih =>
    obtain ⟨k', v'⟩ := p
    simp only [keys] at ih
    by_cases h : k' = k
    · simp [keys, find, h]
    · have h3 : ¬ k = k' := fun e => h e.symm
      simp [keys, find, h, h3, ih]

theorem not_mem_keys_iff_find {β : Type} (m : List (String × β)) (k : String) :
    k ∉ keys m ↔ find m k = none := by
  rw [mem_keys_iff_find]
  cases find m k <;> simp

theorem mem_keys_assign {β : Type} (m : List (String × β)) (k t : String) (v : β) :
    t ∈ keys (assign m k v) ↔ t = k ∨ t ∈ keys m := by
  rw [mem_keys_iff_find, mem_keys_iff_find, find_assign]
  by_cases h : t = k <;> simp [h]

/-! ## The sum of the stored counts -/

theorem foldl_sum (m : List (String × Int)) (a : Int) :
    m.foldl (fun sum it => sum + it.2) a = a + (m.map Prod.snd).sum := by
  induction m generalizing a with
  | nil => simp
  | cons p rest ih => simp [ih, add_assoc]

theorem sum_increment (m : List (String × Int)) (k : String)
    (h : (find m k).isSome = true) :
    ((increment m k).map Prod.snd).sum = (m.map Prod.snd).sum + 1 := by
  induction m with
  | nil => simp [find] at h
  | cons p rest ih =>
    obtain ⟨k', v'⟩ := p
    by_cases h1 : k' = k
    · simp [increment, h1]; ring
    · simp only [find, h1, if_false] at h
      simp [increment, h1, ih h]; ring

theorem sum_assign_of_find_none (m : List (String × Int)) (k : String) (v : Int)
    (h : find m k = none) :
    ((assign m k v).map Prod.snd).sum = (m.map Prod.snd).sum + v := by
  induction m with
  | nil => simp [assign]
  | cons p rest ih =>
    obtain ⟨k', v'⟩ := p
    have hne : ¬ k' = k := by
      intro e
      simp [find, e] at h
    simp only [find, hne, if_false] at h
    simp only [assign]
    by_cases c1 : strLt k k' = true
    · simp [c1]; ring
    · by_cases c2 : strLt k' k = true
      · simp [c1, c2, ih h]; ring
      · exact absurd (strLt_connex (by simpa using c1) (by simpa using c2)).symm hne

end StdMap

end EdgeCounter

namespace EdgeCounter

namespace StdMap

/-! ## The order invariant of the map -/

theorem mem_assign {β : Type} (m : List (String × β)) (k : String) (v : β)
    (x : String × β) (h : x ∈ assign m k v) : x = (k, v) ∨ x ∈ m := by
  induction m with
  | nil => simpa [assign] using h
  | cons p rest ih =>
    obtain ⟨k', v'⟩ := p
    simp only [assign] at h
    split_ifs at h with c1 c2
    · simpa using h
    · rcases List.mem_cons.mp h with h | h
      · exact Or.inr (by simp [h])
      · rcases ih h with h | h
        · exact Or.inl h
        · exact Or.inr (List.mem_cons_of_mem _ h)
    · rcases List.mem_cons.mp h with h | h
      · exact Or.inl h
      · exact Or.inr (List.mem_cons_of_mem _ h)

theorem ordered_assign {β : Type} (m : List (String × β)) (k : String) (v : β)
    (h : Ordered m) : Ordered (assign m k v) := by
  induction m with
  | nil => simp [assign, Ordered]
  | cons p rest ih =>
    obtain ⟨k', v'⟩ := p
    unfold Ordered at h ih ⊢
    rw [List.pairwise_cons] at h
    obtain ⟨hhead, htail⟩ := h
    simp only [assign]
    split_ifs with c1 c2
    · refine List.pairwise_cons.mpr ⟨?_, List.pairwise_cons.mpr ⟨hhead, htail⟩⟩
      intro x hx
      rcases List.mem_cons.mp hx with hx | hx
      · subst hx; exact c1
      · exact strLt_trans c1 (hhead x hx)
    · refine List.pairwise_cons.mpr ⟨?_, ih htail⟩
      intro x hx
      rcases mem_assign rest k v x hx with hx | hx
      · subst hx; exact c2
      · exact hhead x hx
    · have e : k = k' := strLt_connex (by simpa using c1) (by simpa using c2)
      subst e
      exact List.pairwise_cons.mpr ⟨hhead, htail⟩

theorem ordered_iff_keys {β : Type} (m : List (String × β)) :
    Ordered m ↔ (keys m).Pairwise (fun a b => strLt a b = true) := by
  unfold Ordered keys
  rw [List.pairwise_map]

theorem ordered_increment (m : List (String × Int)) (k : String) (h : Ordered m) :
    Ordered (increment m k) := by
  rw [ordered_iff_keys] at h ⊢
  rw [keys_increment]
  exact h

theorem nodup_keys_of_ordered {β : Type} (m : List (String × β)) (h : Ordered m) :
    (keys m).Nodup := by
  rw [ordered_iff_keys] at h
  exact h.imp (fun hab => strLt_ne hab)

theorem find_of_mem {β : Type} (m : List (String × β)) (h : Ordered m)
    (k : String) (v : β) (hm : (k, v) ∈ m) : find m k = some v := by
  induction m with
  | nil => simp at hm
  | cons p rest ih =>
    obtain ⟨k', v'⟩ := p
    unfold Ordered at h ih
    rw [List.pairwise_cons] at h
    rcases List.mem_cons.mp hm with e | hm
    · cases e
      simp [find]
    · have hne : ¬ k' = k := strLt_ne (h.1 (k, v) hm)
      simp only [find, hne, if_false]
      exact ih h.2 hm

theorem mem_of_find {β : Type} (m : List (String × β)) (k : String) (v : β)
    (h : find m k = some v) : (k, v) ∈ m := by
  induction m with
  | nil => simp [find] at h
  | cons p rest ih =>
    obtain ⟨k', v'⟩ := p
    by_cases e : k' = k
    · simp only [find, e, if_true, Option.some.injEq] at h
      simp [e, h]
    · simp only [find, e, if_false] at h
      exact List.mem_cons_of_mem _ (ih h)

end StdMap

namespace EdgeCounter_t

/-! ## What the members do to the counters -/

theorem textMessagesLoop_isSome (s : EdgeCounter_t) (l : List (String × Int))
    (win : List TextMessage) :
    (textMessagesLoop s l win).isSome = true ↔
      ∀ p ∈ l, (StdMap.find s.m_name_to_text_index p.1).isSome = true ∧
        (StdMap.find s.m_name_to_edges_num p.1).isSome = true := by
  induction l generalizing win with
  | nil => simp [textMessagesLoop]
  | cons p rest ih =>
    obtain ⟨name, offset_y⟩ := p
    simp only [textMessagesLoop]
    cases h1 : StdMap.find s.m_name_to_text_index name with
    | none => simp [h1]
    | some ti =>
      cases h2 : StdMap.find s.m_name_to_edges_num name with
      | none => simp [h2]
      | some en => simp [h1, h2, ih]

theorem updateTextMessages_counters (s : EdgeCounter_t) :
    (updateTextMessages s).2.m_name_to_edges_num = s.m_name_to_edges_num ∧
    (updateTextMessages s).2.m_num_loop_closures = s.m_num_loop_closures := by
  unfold updateTextMessages
  split
  · simp
  · split_ifs
    · simp
    · simp
    · split <;> simp

theorem addEdgeTail_counters (s : EdgeCounter_t) :
    (addEdgeTail s).2.m_name_to_edges_num = s.m_name_to_edges_num ∧
    (addEdgeTail s).2.m_num_loop_closures = s.m_num_loop_closures := by
  unfold addEdgeTail
  split_ifs
  · exact updateTextMessages_counters s
  · simp

theorem addEdge_edges_num (s : EdgeCounter_t) (name : String) (is_loop_closure is_new : Bool) :
    (s.addEdge name is_loop_closure is_new).2.m_name_to_edges_num =
      match StdMap.find s.m_name_to_edges_num name with
      | some _ => StdMap.increment s.m_name_to_edges_num name
      | none => if is_new then StdMap.assign s.m_name_to_edges_num name 1
                else s.m_name_to_edges_num := by
  unfold addEdge
  cases StdMap.find s.m_name_to_edges_num name with
  | none =>
    cases is_new
    · simp
    · simp [(addEdgeTail_counters _).1]
  | some c =>
    cases is_new <;> cases is_loop_closure <;> simp [(addEdgeTail_counters _).1]

theorem addEdge_loop_closures (s : EdgeCounter_t) (name : String)
    (is_loop_closure is_new : Bool) :
    (s.addEdge name is_loop_closure is_new).2.m_num_loop_closures =
      if (StdMap.find s.m_name_to_edges_num name).isSome = true ∧ is_new = false ∧
          is_loop_closure = true
      then s.m_num_loop_closures + 1 else s.m_num_loop_closures := by
  unfold addEdge
  cases StdMap.find s.m_name_to_edges_num name with
  | none =>
    cases is_new
    · simp
    · simp [(addEdgeTail_counters _).2]
  | some c =>
    cases is_new <;> cases is_loop_closure <;> simp [(addEdgeTail_counters _).2]

theorem total_eq_sum (s : EdgeCounter_t) :
    s.getTotalNumOfEdges = (s.m_name_to_edges_num.map Prod.snd).sum := by
  unfold getTotalNumOfEdges
  rw [StdMap.foldl_sum]
  simp

end EdgeCounter_t

/-! ## Invariants of call sequences -/

theorem runCalls_preserves (P : EdgeCounter_t → Prop)
    (hstep : ∀ (s : EdgeCounter_t) (c : Call), P s → P (c.exec s).2) :
    ∀ (calls : List Call) (s : EdgeCounter_t), P s → P (runCalls s calls)
  | [], _, h => h
  | c :: cs, s, h => by
    have h1 := hstep s c h
    unfold runCalls
    split
    · next s1 e => rw [e] at h1; exact h1
    · next o s1 _ e =>
      rw [e] at h1
      exact runCalls_preserves P hstep cs s1 h1

theorem exec_ordered (s : EdgeCounter_t) (c : Call)
    (h : StdMap.Ordered s.m_name_to_edges_num) :
    StdMap.Ordered (c.exec s).2.m_name_to_edges_num := by
  cases c with
  | addEdgeType name =>
    simp only [Call.exec, EdgeCounter_t.addEdgeType]
    split
    · exact h
    · exact StdMap.ordered_assign _ _ _ h
  | addEdge name lc new =>
    simp only [Call.exec, EdgeCounter_t.addEdge_edges_num]
    split
    · exact StdMap.ordered_increment _ _ h
    · split_ifs
      · exact StdMap.ordered_assign _ _ _ h
      · exact h
  | clearAllEdges =>
    simp [Call.exec, EdgeCounter_t.clearAllEdges, StdMap.Ordered]

theorem exec_loop_closures_le (s : EdgeCounter_t) (c : Call)
    (h : s.m_num_loop_closures ≤ (s.m_name_to_edges_num.map Prod.snd).sum) :
    (c.exec s).2.m_num_loop_closures ≤
      ((c.exec s).2.m_name_to_edges_num.map Prod.snd).sum := by
  cases c with
  | addEdgeType name =>
    simp only [Call.exec, EdgeCounter_t.addEdgeType]
    split
    · exact h
    · next hf =>
      simp only
      rw [StdMap.sum_assign_of_find_none _ _ _ hf]
      simpa using h
  | addEdge name lc new =>
    simp only [Call.exec, EdgeCounter_t.addEdge_edges_num,
      EdgeCounter_t.addEdge_loop_closures]
    cases hf : StdMap.find s.m_name_to_edges_num name with
    | none =>
      simp only [Option.isSome_none, Bool.false_eq_true, false_and, if_false]
      split_ifs
      · rw [StdMap.sum_assign_of_find_none _ _ _ hf]; omega
      · exact h
    | some c0 =>
      simp only
      rw [StdMap.sum_increment _ _ (by simp [hf])]
      split_ifs <;> omega
  | clearAllEdges =>
    simp [Call.exec, EdgeCounter_t.clearAllEdges]

end EdgeCounter

namespace EdgeCounter

namespace EdgeCounter_t

/-! ## Queries and registration state -/

theorem getNumForEdgeType_eq_ok_iff (s : EdgeCounter_t) (name : String) (count : Int) :
    s.getNumForEdgeType name = Except.ok count ↔
      StdMap.find s.m_name_to_edges_num name = some count := by
  unfold getNumForEdgeType
  cases StdMap.find s.m_name_to_edges_num name <;> simp

theorem getNumForEdgeType_throws_iff (s : EdgeCounter_t) (name : String) :
    (∃ what, s.getNumForEdgeType name = Except.error what) ↔
      StdMap.find s.m_name_to_edges_num name = none := by
  unfold getNumForEdgeType
  cases StdMap.find s.m_name_to_edges_num name <;> simp

theorem getNumForEdgeType_congr (s t : EdgeCounter_t) (name : String)
    (h : StdMap.find t.m_name_to_edges_num name = StdMap.find s.m_name_to_edges_num name) :
    t.getNumForEdgeType name = s.getNumForEdgeType name := by
  unfold getNumForEdgeType
  rw [h]

theorem mem_registeredTypes_iff (s : EdgeCounter_t) (name : String) :
    name ∈ s.registeredTypes ↔ ∃ count, StdMap.find s.m_name_to_edges_num name = some count := by
  unfold registeredTypes
  rw [StdMap.mem_keys_iff_find, Option.isSome_iff_exists]

theorem not_mem_registeredTypes_iff (s : EdgeCounter_t) (name : String) :
    name ∉ s.registeredTypes ↔ StdMap.find s.m_name_to_edges_num name = none :=
  StdMap.not_mem_keys_iff_find _ _

end EdgeCounter_t

open EdgeCounter_t

/-! ## The claims -/

/-- C1: in every state reached from a freshly constructed `EdgeCounter_t` by a
finite sequence of `addEdgeType`, `addEdge` (any flags) and `clearAllEdges`
calls, the throwing calls included, `getLoopClosureEdges()` is at most
`getTotalNumOfEdges()`. -/
theorem loop_closures_le_total_after_calls (win : Option (List TextMessage))
    (font_size0 : Int) (calls : List Call) :
    (runCalls (construct win font_size0) calls).getLoopClosureEdges ≤
      (runCalls (construct win font_size0) calls).getTotalNumOfEdges := by
  rw [total_eq_sum]
  unfold getLoopClosureEdges
  refine runCalls_preserves
    (fun s => s.m_num_loop_closures ≤ (s.m_name_to_edges_num.map Prod.snd).sum)
    exec_loop_closures_le calls _ ?_
  simp [construct, initEdgeCounter_t, clearAllEdges]

/-- C3: for every ledger and every `name` that is not registered,
`addEdge(name, is_loop_closure, false)` throws and the object, hence every
count, the registered names and the loop-closure count, is as before the
call. -/
theorem addEdge_unregistered_throws (s : EdgeCounter_t) (name : String)
    (is_loop_closure : Bool) (hreg : name ∉ s.registeredTypes) :
    (∃ what, (s.addEdge name is_loop_closure false).1 = Outcome.threw what) ∧
    (s.addEdge name is_loop_closure false).2 = s ∧
    (∀ t, (s.addEdge name is_loop_closure false).2.getNumForEdgeType t =
      s.getNumForEdgeType t) ∧
    (s.addEdge name is_loop_closure false).2.registeredTypes = s.registeredTypes ∧
    (s.addEdge name is_loop_closure false).2.getLoopClosureEdges =
      s.getLoopClosureEdges := by
  have hf := (not_mem_registeredTypes_iff s name).mp hreg
  have h : s.addEdge name is_loop_closure false =
      (Outcome.threw ("No edge with such name exists. " ++
        "Specify is_new parameter if you want to add it"), s) := by
    unfold addEdge
    rw [hf]
    simp
  rw [h]
  exact ⟨⟨_, rfl⟩, rfl, fun _ => rfl, rfl, rfl⟩

/-- Witness of C3: `exampleCounter` and the unregistered name `laser`. -/
theorem addEdge_unregistered_throws_witness :
    "laser" ∉ exampleCounter.registeredTypes ∧
    ((∃ what, (exampleCounter.addEdge "laser" true false).1 = Outcome.threw what) ∧
    (exampleCounter.addEdge "laser" true false).2 = exampleCounter ∧
    (∀ t, (exampleCounter.addEdge "laser" true false).2.getNumForEdgeType t =
      exampleCounter.getNumForEdgeType t) ∧
    (exampleCounter.addEdge "laser" true false).2.registeredTypes
      = exampleCounter.registeredTypes ∧
    (exampleCounter.addEdge "laser" true false).2.getLoopClosureEdges =
      exampleCounter.getLoopClosureEdges) :=
  ⟨by decide, addEdge_unregistered_throws exampleCounter "laser" true (by decide)⟩

/-- C4: for every ledger and every `name` that is not registered,
`addEdgeType(name)` returns normally, afterwards `getNumForEdgeType(name)`
returns 0, and the count of every other name, the loop-closure count and
`getTotalNumOfEdges()` are unchanged. -/
theorem addEdgeType_unregistered_registers (s : EdgeCounter_t) (name : String)
    (hreg : name ∉ s.registeredTypes) :
    (s.addEdgeType name).1 = Outcome.returned ∧
    (s.addEdgeType name).2.getNumForEdgeType name = Except.ok 0 ∧
    (∀ other, other ≠ name →
      (s.addEdgeType name).2.getNumForEdgeType other = s.getNumForEdgeType other) ∧
    (s.addEdgeType name).2.getLoopClosureEdges = s.getLoopClosureEdges ∧
    (s.addEdgeType name).2.getTotalNumOfEdges = s.getTotalNumOfEdges := by
  have hf := (not_mem_registeredTypes_iff s name).mp hreg
  have h : s.addEdgeType name = (Outcome.returned,
      { s with m_name_to_edges_num := StdMap.assign s.m_name_to_edges_num name 0 }) := by
    unfold addEdgeType
    rw [hf]
  rw [h]
  refine ⟨rfl, ?_, ?_, rfl, ?_⟩
  · rw [getNumForEdgeType_eq_ok_iff]
    simp [StdMap.find_assign]
  · intro other hne
    apply getNumForEdgeType_congr
    simp [StdMap.find_assign, hne]
  · rw [total_eq_sum, total_eq_sum]
    simp only
    rw [StdMap.sum_assign_of_find_none _ _ _ hf]
    simp

/-- Witness of C4: `exampleCounter` and the unregistered name `laser`. -/
theorem addEdgeType_unregistered_registers_witness :
    "laser" ∉ exampleCounter.registeredTypes ∧
    ((exampleCounter.addEdgeType "laser").1 = Outcome.returned ∧
    (exampleCounter.addEdgeType "laser").2.getNumForEdgeType "laser" = Except.ok 0 ∧
    (∀ other, other ≠ "laser" →
      (exampleCounter.addEdgeType "laser").2.getNumForEdgeType other
        = exampleCounter.getNumForEdgeType other) ∧
    (exampleCounter.addEdgeType "laser").2.getLoopClosureEdges
      = exampleCounter.getLoopClosureEdges ∧
    (exampleCounter.addEdgeType "laser").2.getTotalNumOfEdges
      = exampleCounter.getTotalNumOfEdges) :=
  ⟨by decide, addEdgeType_unregistered_registers exampleCounter "laser" (by decide)⟩

/-- C5: for every ledger and every registered `name`, whatever its count,
`addEdgeType(name)` throws and leaves the object as it was: the count of
`name` is kept, and no other count nor the loop-closure count changes. -/
theorem addEdgeType_registered_throws (s : EdgeCounter_t) (name : String)
    (hreg : name ∈ s.registeredTypes) :
    (∃ what, (s.addEdgeType name).1 = Outcome.threw what) ∧
    (s.addEdgeType name).2 = s ∧
    (∀ t, (s.addEdgeType name).2.getNumForEdgeType t = s.getNumForEdgeType t) ∧
    (s.addEdgeType name).2.getLoopClosureEdges = s.getLoopClosureEdges := by
  obtain ⟨count, hc⟩ := (mem_registeredTypes_iff s name).mp hreg
  have h : s.addEdgeType name =
      (Outcome.threw ("Specified edge type " ++ name ++ " already exists"), s) := by
    unfold addEdgeType
    rw [hc]
  rw [h]
  exact ⟨⟨_, rfl⟩, rfl, fun _ => rfl, rfl⟩

/-- Witness of C5: `exampleCounter` and its type `ICP2D`, whose count is 3. -/
theorem addEdgeType_registered_throws_witness :
    "ICP2D" ∈ exampleCounter.registeredTypes ∧
    ((∃ what, (exampleCounter.addEdgeType "ICP2D").1 = Outcome.threw what) ∧
    (exampleCounter.addEdgeType "ICP2D").2 = exampleCounter ∧
    (∀ t, (exampleCounter.addEdgeType "ICP2D").2.getNumForEdgeType t
      = exampleCounter.getNumForEdgeType t) ∧
    (exampleCounter.addEdgeType "ICP2D").2.getLoopClosureEdges
      = exampleCounter.getLoopClosureEdges) :=
  ⟨by decide, addEdgeType_registered_throws exampleCounter "ICP2D" (by decide)⟩

end EdgeCounter

namespace EdgeCounter

open EdgeCounter_t

/-- C6: for every ledger and every `name`, both overloads of
`getNumForEdgeType(name)` throw exactly when `name` is not a registered edge
type; for a registered `name` they return a count stored for `name`, which in
a map (keys in strictly ascending order) is the only one, and the object is
the same afterwards. -/
theorem getNumForEdgeType_throws_iff_unregistered (s : EdgeCounter_t) (name : String) :
    ((∃ what, s.getNumForEdgeType name = Except.error what) ↔
      name ∉ s.registeredTypes) ∧
    ((∃ what, s.getNumForEdgeTypeOut name = Except.error what) ↔
      name ∉ s.registeredTypes) ∧
    (name ∈ s.registeredTypes →
      ∃ count, (name, count) ∈ s.m_name_to_edges_num ∧
        s.getNumForEdgeType name = Except.ok count ∧
        s.getNumForEdgeTypeOut name = Except.ok (count, s)) ∧
    (StdMap.Ordered s.m_name_to_edges_num →
      ∀ count, (name, count) ∈ s.m_name_to_edges_num →
        s.getNumForEdgeType name = Except.ok count ∧
        s.getNumForEdgeTypeOut name = Except.ok (count, s)) := by
  have hout : ∀ count, StdMap.find s.m_name_to_edges_num name = some count →
      s.getNumForEdgeType name = Except.ok count ∧
      s.getNumForEdgeTypeOut name = Except.ok (count, s) := by
    intro count hc
    unfold getNumForEdgeType getNumForEdgeTypeOut
    rw [hc]
    exact ⟨rfl, rfl⟩
  refine ⟨?_, ?_, ?_, ?_⟩
  · rw [getNumForEdgeType_throws_iff, not_mem_registeredTypes_iff]
  · rw [not_mem_registeredTypes_iff]
    unfold getNumForEdgeTypeOut
    cases StdMap.find s.m_name_to_edges_num name <;> simp
  · intro hreg
    obtain ⟨count, hc⟩ := (mem_registeredTypes_iff s name).mp hreg
    exact ⟨count, StdMap.mem_of_find _ _ _ hc, hout count hc⟩
  · intro hord count hm
    exact hout count (StdMap.find_of_mem _ hord _ _ hm)

/-- Witness of C6: `exampleCounter`, whose map is ordered, and its type
`odometry` with the stored count 7. -/
theorem getNumForEdgeType_throws_iff_unregistered_witness :
    "odometry" ∈ exampleCounter.registeredTypes ∧
    StdMap.Ordered exampleCounter.m_name_to_edges_num ∧
    ("odometry", 7) ∈ exampleCounter.m_name_to_edges_num ∧
    exampleCounter.getNumForEdgeType "odometry" = Except.ok 7 ∧
    exampleCounter.getNumForEdgeTypeOut "odometry" = Except.ok (7, exampleCounter) :=
  ⟨by decide, by decide, by decide,
    (getNumForEdgeType_throws_iff_unregistered exampleCounter "odometry").2.2.2
      (by decide) 7 (by decide)⟩

/-- The stored counts are the values returned by `getNumForEdgeType` for the
keys, in the order of the keys. -/
theorem forall₂_getNumForEdgeType (s : EdgeCounter_t)
    (hord : StdMap.Ordered s.m_name_to_edges_num) :
    ∀ (l : List (String × Int)), (∀ p ∈ l, p ∈ s.m_name_to_edges_num) →
      List.Forall₂ (fun t c => s.getNumForEdgeType t = Except.ok c)
        (l.map Prod.fst) (l.map Prod.snd)
  | [], _ => List.Forall₂.nil
  | p :: rest, h => by
    refine List.Forall₂.cons ?_
      (forall₂_getNumForEdgeType s hord rest (fun q hq => h q (List.mem_cons_of_mem _ hq)))
    rw [getNumForEdgeType_eq_ok_iff]
    exact StdMap.find_of_mem _ hord _ _ (h p (List.mem_cons_self _ _))

/-- C7: after every finite sequence of `addEdgeType`, `addEdge` (any flags)
and `clearAllEdges` calls on a fresh `EdgeCounter_t`, the throwing calls
included, every registered type is listed once and `getTotalNumOfEdges()` is
the sum of `getNumForEdgeType(t)` over the registered types `t`. -/
theorem total_eq_sum_over_registered_types (win : Option (List TextMessage))
    (font_size0 : Int) (calls : List Call) :
    (runCalls (construct win font_size0) calls).registeredTypes.Nodup ∧
    ∃ counts : List Int,
      List.Forall₂
        (fun t c => (runCalls (construct win font_size0) calls).getNumForEdgeType t
          = Except.ok c)
        (runCalls (construct win font_size0) calls).registeredTypes counts ∧
      (runCalls (construct win font_size0) calls).getTotalNumOfEdges = counts.sum := by
  have hord : StdMap.Ordered (runCalls (construct win font_size0) calls).m_name_to_edges_num := by
    refine runCalls_preserves (fun s => StdMap.Ordered s.m_name_to_edges_num)
      exec_ordered calls _ ?_
    simp [construct, initEdgeCounter_t, clearAllEdges, StdMap.Ordered]
  refine ⟨StdMap.nodup_keys_of_ordered _ hord, _, ?_, total_eq_sum _⟩
  exact forall₂_getNumForEdgeType _ hord _ (fun _ hp => hp)

/-- C8: for every ledger, after `clearAllEdges()` no edge type is registered
and `getNumForEdgeType` throws for every name, `getTotalNumOfEdges()` and
`getLoopClosureEdges()` are 0, the counters are those of a freshly constructed
`EdgeCounter_t`, and every name, a previously registered one included, can
be registered with `addEdgeType`. -/
theorem clearAllEdges_resets (s : EdgeCounter_t) :
    s.clearAllEdges.registeredTypes = [] ∧
    (∀ name, ∃ what, s.clearAllEdges.getNumForEdgeType name = Except.error what) ∧
    s.clearAllEdges.getTotalNumOfEdges = 0 ∧
    s.clearAllEdges.getLoopClosureEdges = 0 ∧
    (∀ win font_size0,
      s.clearAllEdges.m_name_to_edges_num = (construct win font_size0).m_name_to_edges_num ∧
      s.clearAllEdges.getLoopClosureEdges = (construct win font_size0).getLoopClosureEdges ∧
      s.clearAllEdges.getTotalNumOfEdges = (construct win font_size0).getTotalNumOfEdges) ∧
    (∀ name, (s.clearAllEdges.addEdgeType name).1 = Outcome.returned ∧
      (s.clearAllEdges.addEdgeType name).2.getNumForEdgeType name = Except.ok 0 ∧
      (s.clearAllEdges.addEdgeType name).2.registeredTypes = [name]) := by
  refine ⟨rfl, fun name => ⟨_, rfl⟩, rfl, rfl, fun _ _ => ⟨rfl, rfl, rfl⟩, ?_⟩
  intro name
  refine ⟨rfl, ?_, rfl⟩
  simp [addEdgeType, clearAllEdges, StdMap.find, StdMap.assign, getNumForEdgeType]

/-- C9, as stated, fails: `b` is registered before `a`, and the report lists
the line of `a` before the line of `b`. -/
theorem summary_not_in_registration_order :
    registrationOrder (construct none 0) []
      [Call.addEdgeType "b", Call.addEdgeType "a"] = ["b", "a"] ∧
    (printEdgesSummary (runCalls (construct none 0)
      [Call.addEdgeType "b", Call.addEdgeType "a"])).drop 4
      = ["\t a edges: 0", "\t b edges: 0"] ∧
    (printEdgesSummary (runCalls (construct none 0)
      [Call.addEdgeType "b", Call.addEdgeType "a"])).drop 4
      ≠ ["\t b edges: 0", "\t a edges: 0"] := by
  decide

/-- C9, amended: after every finite sequence of `addEdgeType`, `addEdge` and
`clearAllEdges` calls on a fresh `EdgeCounter_t`, the per-type lines of the
report of `printEdgesSummary` are one line for each registered type with its
count, in strictly ascending order of the type names as compared by
`std::string`, whatever the order of registration. -/
theorem summary_lines_in_name_order (win : Option (List TextMessage))
    (font_size0 : Int) (calls : List Call) :
    ∃ entries : List (String × Int),
      (printEdgesSummary (runCalls (construct win font_size0) calls)).drop 4 =
        entries.map (fun it => "\t " ++ it.1 ++ " edges: " ++ toString it.2) ∧
      entries.Pairwise (fun a b => strLt a.1 b.1 = true) ∧
      ∀ t c, (t, c) ∈ entries ↔
        (runCalls (construct win font_size0) calls).getNumForEdgeType t = Except.ok c := by
  have hord : StdMap.Ordered (runCalls (construct win font_size0) calls).m_name_to_edges_num := by
    refine runCalls_preserves (fun s => StdMap.Ordered s.m_name_to_edges_num)
      exec_ordered calls _ ?_
    simp [construct, initEdgeCounter_t, clearAllEdges, StdMap.Ordered]
  refine ⟨(runCalls (construct win font_size0) calls).m_name_to_edges_num, ?_, hord, ?_⟩
  · simp [printEdgesSummary, summaryTypeLines]
  · intro t c
    rw [getNumForEdgeType_eq_ok_iff]
    exact ⟨StdMap.find_of_mem _ hord t c, StdMap.mem_of_find _ t c⟩

/-- C10, as stated, fails: on a fresh counter `addEdge("ICP2D", false, true)`
returns normally and has created the entry `ICP2D` with count 1. -/
theorem addEdge_is_new_creates_entry :
    (construct none 0).registeredTypes = [] ∧
    ((construct none 0).addEdge "ICP2D" false true).1 = Outcome.returned ∧
    ((construct none 0).addEdge "ICP2D" false true).2.registeredTypes = ["ICP2D"] ∧
    ((construct none 0).addEdge "ICP2D" false true).2.getNumForEdgeType "ICP2D"
      = Except.ok 1 :=
  ⟨by decide, by decide, by decide, rfl⟩

/-- C10, amended: a call `addEdge(name, is_loop_closure, is_new)` with
`is_new` false or with a registered `name` leaves the registered names as they
were, whether it returns or throws; a call with `is_new` true and
`is_loop_closure` false on an unregistered `name` registers `name`, with
count 1, and no other name.  Nothing is said of a call with both flags true
on an unregistered name. -/
theorem addEdge_registered_names (s : EdgeCounter_t) (name : String)
    (is_loop_closure is_new : Bool) :
    (is_new = false ∨ name ∈ s.registeredTypes →
      (s.addEdge name is_loop_closure is_new).2.registeredTypes = s.registeredTypes) ∧
    (is_new = true ∧ is_loop_closure = false ∧ name ∉ s.registeredTypes →
      (∀ t, t ∈ (s.addEdge name is_loop_closure is_new).2.registeredTypes ↔
        t = name ∨ t ∈ s.registeredTypes) ∧
      (s.addEdge name is_loop_closure is_new).2.getNumForEdgeType name = Except.ok 1) := by
  have hedges := addEdge_edges_num s name is_loop_closure is_new
  constructor
  · intro h
    unfold registeredTypes
    rw [hedges]
    cases hf : StdMap.find s.m_name_to_edges_num name with
    | some c => exact StdMap.keys_increment _ _
    | none =>
      rcases h with h | h
      · simp [h]
      · exact absurd ((not_mem_registeredTypes_iff s name).mpr hf) (not_not.mpr h)
  · rintro ⟨hnew, _, hreg⟩
    have hf := (not_mem_registeredTypes_iff s name).mp hreg
    subst hnew
    rw [hf] at hedges
    simp only [if_true] at hedges
    constructor
    · intro t
      unfold registeredTypes
      rw [hedges]
      exact StdMap.mem_keys_assign _ _ _ _
    · rw [getNumForEdgeType_eq_ok_iff, hedges, StdMap.find_assign]
      simp

/-- Witness of C10, amended: on `exampleCounter` the call
`addEdge("laser", false, false)` on the unregistered name `laser` throws and
leaves the names as they were, and the call `addEdge("laser", false, true)`
registers `laser` with count 1. -/
theorem addEdge_registered_names_witness :
    (false = false ∨ "laser" ∈ exampleCounter.registeredTypes) ∧
    (exampleCounter.addEdge "laser" false false).1
      = Outcome.threw ("No edge with such name exists. " ++
          "Specify is_new parameter if you want to add it") ∧
    (exampleCounter.addEdge "laser" false false).2.registeredTypes
      = exampleCounter.registeredTypes ∧
    (true = true ∧ false = false ∧ "laser" ∉ exampleCounter.registeredTypes) ∧
    (exampleCounter.addEdge "laser" false true).2.getNumForEdgeType "laser" = Except.ok 1 :=
  ⟨by decide, by decide,
    (addEdge_registered_names exampleCounter "laser" false false).1 (by decide),
    by decide,
    ((addEdge_registered_names exampleCounter "laser" false true).2 (by decide)).2⟩

end EdgeCounter

namespace EdgeCounter

open EdgeCounter_t

/-- C11: the claim does not hold on the code.  On a fresh counter
`addEdge("ICP2D", true, true)` raises nothing: it returns normally, creates
the entry `ICP2D` with count 1 and leaves the loop-closure count at 0. -/
theorem addEdge_new_loop_closure_unregistered_returns :
    "ICP2D" ∉ (construct none 0).registeredTypes ∧
    ((construct none 0).addEdge "ICP2D" true true).1 = Outcome.returned ∧
    ((construct none 0).addEdge "ICP2D" true true).2.getNumForEdgeType "ICP2D"
      = Except.ok 1 ∧
    ((construct none 0).addEdge "ICP2D" true true).2.getLoopClosureEdges = 0 :=
  ⟨by decide, by decide, rfl, by decide⟩

/-- C19: the claim does not hold on the code.  On `exampleCounter`, where
`ICP2D` has 3 edges, `addEdge("ICP2D", false, true)` throws and the count of
`ICP2D` is 4 after the failed call. -/
theorem addEdge_registered_is_new_throws_after_increment :
    exampleCounter.getNumForEdgeType "ICP2D" = Except.ok 3 ∧
    (exampleCounter.addEdge "ICP2D" false true).1 =
      Outcome.threw "Specified edge type already exists but is_new is also specified!" ∧
    (exampleCounter.addEdge "ICP2D" false true).2.getNumForEdgeType "ICP2D"
      = Except.ok 4 ∧
    (exampleCounter.addEdge "ICP2D" false true).2 ≠ exampleCounter :=
  ⟨rfl, by decide, rfl, by decide⟩

end EdgeCounter

namespace EdgeCounter

open EdgeCounter_t

/-! ## Counting sessions -/

/-- One call of a counting session on an object whose text-message parameters
have not been read: it does not abort, the parameters stay unread, and the
counters move by what the call counts for. -/
theorem countingCall_step (s : EdgeCounter_t)
    (hf : s.m_has_read_textmessage_params = false) (c : CountingCall) :
    (c.toCall.exec s).1 ≠ Outcome.aborted ∧
    (c.toCall.exec s).2.m_has_read_textmessage_params = false ∧
    (∀ t, (StdMap.find (c.toCall.exec s).2.m_name_to_edges_num t).getD 0 =
      (StdMap.find s.m_name_to_edges_num t).getD 0
        + (returnedAddEdge t c.toCall (c.toCall.exec s).1 : Int)) ∧
    (c.toCall.exec s).2.m_num_loop_closures =
      s.m_num_loop_closures + (returnedLoopClosureAddEdge c.toCall (c.toCall.exec s).1 : Int) := by
  cases c with
  | addEdgeType name =>
    simp only [CountingCall.toCall, Call.exec, addEdgeType]
    cases hfind : StdMap.find s.m_name_to_edges_num name with
    | some v =>
      simp [returnedAddEdge, returnedLoopClosureAddEdge, hf]
    | none =>
      refine ⟨by simp, hf, ?_, by simp [returnedLoopClosureAddEdge]⟩
      intro t
      simp only [StdMap.find_assign, returnedAddEdge]
      by_cases h : t = name
      · subst h; simp [hfind]
      · simp [h]
  | addEdge name lc =>
    simp only [CountingCall.toCall, Call.exec, addEdge]
    cases hfind : StdMap.find s.m_name_to_edges_num name with
    | none =>
      simp [returnedAddEdge, returnedLoopClosureAddEdge, hf]
    | some v =>
      cases lc
      · simp only [addEdgeTail, hf, Bool.false_eq_true, if_false]
        refine ⟨by simp, trivial, ?_, by simp [returnedLoopClosureAddEdge]⟩
        intro t
        simp only [StdMap.find_increment, returnedAddEdge]
        by_cases h : t = name
        · subst h; simp [hfind]
        · have h2 : ¬ name = t := fun e => h e.symm
          simp [h, h2]
      · simp only [addEdgeTail, hf, Bool.false_eq_true, if_false, if_true]
        refine ⟨by simp, trivial, ?_, by simp [returnedLoopClosureAddEdge]⟩
        intro t
        simp only [StdMap.find_increment, returnedAddEdge]
        by_cases h : t = name
        · subst h; simp [hfind]
        · have h2 : ¬ name = t := fun e => h e.symm
          simp [h, h2]

/-- A counting session on an object whose text-message parameters have not
been read adds to every count the number of returned `addEdge` calls of that
name, and to the loop-closure counter the number of returned `addEdge` calls
with `is_loop_closure = true`. -/
theorem countingSession_counts : ∀ (calls : List CountingCall) (s : EdgeCounter_t),
    s.m_has_read_textmessage_params = false →
    (∀ t, (StdMap.find (runCalls s (calls.map CountingCall.toCall)).m_name_to_edges_num t).getD 0
      = (StdMap.find s.m_name_to_edges_num t).getD 0
        + (returnedAddEdges t s (calls.map CountingCall.toCall) : Int)) ∧
    (runCalls s (calls.map CountingCall.toCall)).m_num_loop_closures =
      s.m_num_loop_closures
        + (returnedLoopClosureAddEdges s (calls.map CountingCall.toCall) : Int)
  | [], s, _ => by simp [runCalls, returnedAddEdges, returnedLoopClosureAddEdges]
  | c :: cs, s, hf => by
    obtain ⟨hna, hf1, hcount, hlc⟩ := countingCall_step s hf c
    obtain ⟨ih1, ih2⟩ := countingSession_counts cs (c.toCall.exec s).2 hf1
    have hrun : runCalls s ((c :: cs).map CountingCall.toCall) =
        runCalls (c.toCall.exec s).2 (cs.map CountingCall.toCall) := by
      simp only [List.map_cons, runCalls]
    have hret : ∀ t, returnedAddEdges t s ((c :: cs).map CountingCall.toCall) =
        returnedAddEdge t c.toCall (c.toCall.exec s).1
          + returnedAddEdges t (c.toCall.exec s).2 (cs.map CountingCall.toCall) := by
      intro t
      simp only [List.map_cons, returnedAddEdges]
    have hretlc : returnedLoopClosureAddEdges s ((c :: cs).map CountingCall.toCall) =
        returnedLoopClosureAddEdge c.toCall (c.toCall.exec s).1
          + returnedLoopClosureAddEdges (c.toCall.exec s).2 (cs.map CountingCall.toCall) := by
      simp only [List.map_cons, returnedLoopClosureAddEdges]
    rw [hrun]
    constructor
    · intro t
      rw [ih1 t, hcount t, hret t]
      push_cast
      ring
    · rw [ih2, hlc, hretlc]
      push_cast
      ring

/-- C18: starting from a fresh or a just-cleared `EdgeCounter_t`, after every
finite sequence of `addEdgeType(n)` and `addEdge(n, lc, false)` calls, every
registered type `t` has as count the number of `addEdge` calls with the name
`t` that returned normally, and `getLoopClosureEdges()` is the number of the
`addEdge` calls made with `is_loop_closure = true` that returned normally. -/
theorem counts_eq_returned_addEdges (s0 : EdgeCounter_t)
    (hstart : (∃ win font_size0, s0 = construct win font_size0) ∨
      (∃ s : EdgeCounter_t, s0 = s.clearAllEdges))
    (calls : List CountingCall) :
    (∀ t ∈ (runCalls s0 (calls.map CountingCall.toCall)).registeredTypes,
      (runCalls s0 (calls.map CountingCall.toCall)).getNumForEdgeType t =
        Except.ok (returnedAddEdges t s0 (calls.map CountingCall.toCall) : Int)) ∧
    (runCalls s0 (calls.map CountingCall.toCall)).getLoopClosureEdges =
      (returnedLoopClosureAddEdges s0 (calls.map CountingCall.toCall) : Int) := by
  have h0 : s0.m_has_read_textmessage_params = false ∧ s0.m_name_to_edges_num = [] ∧
      s0.m_num_loop_closures = 0 := by
    rcases hstart with ⟨win, fs, h⟩ | ⟨s, h⟩
    · subst h; exact ⟨rfl, rfl, rfl⟩
    · subst h; exact ⟨rfl, rfl, rfl⟩
  obtain ⟨hcount, hlc⟩ := countingSession_counts calls s0 h0.1
  constructor
  · intro t ht
    obtain ⟨count, hc⟩ := (mem_registeredTypes_iff _ t).mp ht
    have h := hcount t
    rw [hc, h0.2.1] at h
    simp only [StdMap.find, Option.getD_some, Option.getD_none, zero_add] at h
    rw [getNumForEdgeType_eq_ok_iff, hc, h]
  · unfold getLoopClosureEdges
    rw [hlc, h0.2.2, zero_add]

/-- Witness of C18: on a fresh counter, after registering `ICP2D`, two
`addEdge` calls on it (one a loop closure) and one on the unknown `odometry`,
the count of `ICP2D` is 2 and the loop-closure count is 1. -/
theorem counts_eq_returned_addEdges_witness :
    "ICP2D" ∈ (runCalls (construct none 0) ([CountingCall.addEdgeType "ICP2D",
        CountingCall.addEdge "ICP2D" true, CountingCall.addEdge "odometry" true,
        CountingCall.addEdge "ICP2D" false].map CountingCall.toCall)).registeredTypes ∧
    returnedAddEdges "ICP2D" (construct none 0) ([CountingCall.addEdgeType "ICP2D",
        CountingCall.addEdge "ICP2D" true, CountingCall.addEdge "odometry" true,
        CountingCall.addEdge "ICP2D" false].map CountingCall.toCall) = 2 ∧
    (runCalls (construct none 0) ([CountingCall.addEdgeType "ICP2D",
        CountingCall.addEdge "ICP2D" true, CountingCall.addEdge "odometry" true,
        CountingCall.addEdge "ICP2D" false].map CountingCall.toCall)).getNumForEdgeType "ICP2D"
      = Except.ok (returnedAddEdges "ICP2D" (construct none 0)
          ([CountingCall.addEdgeType "ICP2D",
            CountingCall.addEdge "ICP2D" true, CountingCall.addEdge "odometry" true,
            CountingCall.addEdge "ICP2D" false].map CountingCall.toCall) : Int) :=
  ⟨by decide, by decide,
    (counts_eq_returned_addEdges (construct none 0) (Or.inl ⟨none, 0, rfl⟩)
      [CountingCall.addEdgeType "ICP2D", CountingCall.addEdge "ICP2D" true,
        CountingCall.addEdge "odometry" true, CountingCall.addEdge "ICP2D" false]).1
      "ICP2D" (by decide)⟩

end EdgeCounter

namespace EdgeCounter

open EdgeCounter_t

/-! ## The text-message parameters -/

/-- Every name with a stored y-offset has a stored text index and is a
registered edge type: what the lookups of `updateTextMessages` rely on. -/
theorem textParams_inv_iff_loop (s : EdgeCounter_t) (win : List TextMessage) :
    (∀ p ∈ s.m_name_to_offset_y,
      (StdMap.find s.m_name_to_text_index p.1).isSome = true ∧
      (StdMap.find s.m_name_to_edges_num p.1).isSome = true) ↔
    (textMessagesLoop s s.m_name_to_offset_y win).isSome = true :=
  (textMessagesLoop_isSome s s.m_name_to_offset_y win).symm

theorem updateTextMessages_display (s : EdgeCounter_t) :
    (updateTextMessages s).2.m_name_to_offset_y = s.m_name_to_offset_y ∧
    (updateTextMessages s).2.m_name_to_text_index = s.m_name_to_text_index := by
  unfold updateTextMessages
  split
  · simp
  · split_ifs
    · simp
    · simp
    · split <;> simp

theorem addEdgeTail_display (s : EdgeCounter_t) :
    (addEdgeTail s).2.m_name_to_offset_y = s.m_name_to_offset_y ∧
    (addEdgeTail s).2.m_name_to_text_index = s.m_name_to_text_index := by
  unfold addEdgeTail
  split_ifs
  · exact updateTextMessages_display s
  · simp

theorem addEdge_display (s : EdgeCounter_t) (name : String) (is_loop_closure is_new : Bool) :
    (s.addEdge name is_loop_closure is_new).2.m_name_to_offset_y = s.m_name_to_offset_y ∧
    (s.addEdge name is_loop_closure is_new).2.m_name_to_text_index
      = s.m_name_to_text_index := by
  unfold addEdge
  cases StdMap.find s.m_name_to_edges_num name with
  | none =>
    cases is_new
    · simp
    · simp [addEdgeTail_display]
  | some c =>
    cases is_new <;> cases is_loop_closure <;> simp [addEdgeTail_display]

/-- A counting call keeps every registered name registered, unless it is
`clearAllEdges`, and leaves the stored offsets and text indices alone, unless
it is `clearAllEdges`, which empties them. -/
theorem exec_textParams_inv (s : EdgeCounter_t) (c : Call)
    (h : ∀ p ∈ s.m_name_to_offset_y,
      (StdMap.find s.m_name_to_text_index p.1).isSome = true ∧
      (StdMap.find s.m_name_to_edges_num p.1).isSome = true) :
    ∀ p ∈ (c.exec s).2.m_name_to_offset_y,
      (StdMap.find (c.exec s).2.m_name_to_text_index p.1).isSome = true ∧
      (StdMap.find (c.exec s).2.m_name_to_edges_num p.1).isSome = true := by
  cases c with
  | addEdgeType name =>
    simp only [Call.exec, addEdgeType]
    split
    · exact h
    · intro p hp
      refine ⟨(h p hp).1, ?_⟩
      simp only [StdMap.find_assign]
      split_ifs
      · rfl
      · exact (h p hp).2
  | addEdge name lc new =>
    simp only [Call.exec]
    rw [(addEdge_display s name lc new).1, (addEdge_display s name lc new).2,
      addEdge_edges_num]
    intro p hp
    refine ⟨(h p hp).1, ?_⟩
    have hreg := (h p hp).2
    split
    · rw [← StdMap.mem_keys_iff_find, StdMap.keys_increment, StdMap.mem_keys_iff_find]
      exact hreg
    · split_ifs
      · simp only [StdMap.find_assign]
        split_ifs
        · rfl
        · exact hreg
      · exact hreg
  | clearAllEdges =>
    simp [Call.exec, clearAllEdges]

theorem setTextMessageParamsLoop_inv (name_to_text_index : List (String × Int)) :
    ∀ (l : List (String × Int)) (s : EdgeCounter_t),
    (∀ p ∈ s.m_name_to_offset_y,
      (StdMap.find s.m_name_to_text_index p.1).isSome = true ∧
      (StdMap.find s.m_name_to_edges_num p.1).isSome = true) →
    ∀ p ∈ (setTextMessageParamsLoop name_to_text_index l s).2.m_name_to_offset_y,
      (StdMap.find (setTextMessageParamsLoop name_to_text_index l s).2.m_name_to_text_index
        p.1).isSome = true ∧
      (StdMap.find (setTextMessageParamsLoop name_to_text_index l s).2.m_name_to_edges_num
        p.1).isSome = true
  | [], s, h => by simpa [setTextMessageParamsLoop] using h
  | (name, offset_y) :: rest, s, h => by
    simp only [setTextMessageParamsLoop]
    cases hreg : StdMap.find s.m_name_to_edges_num name with
    | none => simpa using h
    | some count =>
      cases hti : StdMap.find name_to_text_index name with
      | none => simpa using h
      | some text_index =>
        simp only
        apply setTextMessageParamsLoop_inv name_to_text_index rest
        intro p hp
        simp only at hp ⊢
        rcases StdMap.mem_assign _ _ _ p hp with hp | hp
        · subst hp
          simp [StdMap.find_assign, hreg]
        · refine ⟨?_, (h p hp).2⟩
          simp only [StdMap.find_assign]
          split_ifs
          · rfl
          · exact (h p hp).1

theorem setTextMessageParams_inv (s : EdgeCounter_t)
    (name_to_offset_y name_to_text_index : List (String × Int))
    (font_name : String) (font_size : Int)
    (h : ∀ p ∈ s.m_name_to_offset_y,
      (StdMap.find s.m_name_to_text_index p.1).isSome = true ∧
      (StdMap.find s.m_name_to_edges_num p.1).isSome = true) :
    ∀ p ∈ (s.setTextMessageParams name_to_offset_y name_to_text_index
        font_name font_size).2.m_name_to_offset_y,
      (StdMap.find (s.setTextMessageParams name_to_offset_y name_to_text_index
        font_name font_size).2.m_name_to_text_index p.1).isSome = true ∧
      (StdMap.find (s.setTextMessageParams name_to_offset_y name_to_text_index
        font_name font_size).2.m_name_to_edges_num p.1).isSome = true := by
  have hloop := setTextMessageParamsLoop_inv name_to_text_index name_to_offset_y s h
  unfold setTextMessageParams
  split
  · exact h
  · split_ifs
    · exact h
    · split
      · next s1 e =>
        rw [e] at hloop
        exact hloop
      · next r hr =>
        exact hloop

theorem runDisplayCalls_preserves (P : EdgeCounter_t → Prop)
    (hstep : ∀ (s : EdgeCounter_t) (c : DisplayCall), P s → P (c.exec s).2) :
    ∀ (calls : List DisplayCall) (s : EdgeCounter_t), P s → P (runDisplayCalls s calls)
  | [], _, h => h
  | c :: cs, s, h => by
    have h1 := hstep s c h
    unfold runDisplayCalls
    split
    · next s1 e => rw [e] at h1; exact h1
    · next o s1 _ e =>
      rw [e] at h1
      exact runDisplayCalls_preserves P hstep cs s1 h1

/-- C20: in every state reached from a fresh `EdgeCounter_t` by `addEdgeType`,
`addEdge`, `clearAllEdges` and `setTextMessageParams` calls (whatever the two
maps handed over, so with equal key sets in particular, and the calls that
throw part-way included), every name with a stored y-offset has a stored text
index and is a registered edge type, so that the lookups of
`updateTextMessages` do not miss. -/
theorem display_lookups_never_miss (win : Option (List TextMessage)) (font_size0 : Int)
    (calls : List DisplayCall) :
    (∀ p ∈ (runDisplayCalls (construct win font_size0) calls).m_name_to_offset_y,
      (∃ text_index, StdMap.find
        (runDisplayCalls (construct win font_size0) calls).m_name_to_text_index p.1
          = some text_index) ∧
      p.1 ∈ (runDisplayCalls (construct win font_size0) calls).registeredTypes) ∧
    (∀ w, (textMessagesLoop (runDisplayCalls (construct win font_size0) calls)
      (runDisplayCalls (construct win font_size0) calls).m_name_to_offset_y w).isSome
        = true) := by
  have hinv : ∀ p ∈ (runDisplayCalls (construct win font_size0) calls).m_name_to_offset_y,
      (StdMap.find (runDisplayCalls (construct win font_size0) calls).m_name_to_text_index
        p.1).isSome = true ∧
      (StdMap.find (runDisplayCalls (construct win font_size0) calls).m_name_to_edges_num
        p.1).isSome = true := by
    refine runDisplayCalls_preserves
      (fun s => ∀ p ∈ s.m_name_to_offset_y,
        (StdMap.find s.m_name_to_text_index p.1).isSome = true ∧
        (StdMap.find s.m_name_to_edges_num p.1).isSome = true) ?_ calls _ ?_
    · intro s c h
      cases c with
      | counting c => exact exec_textParams_inv s c h
      | setTextMessageParams a b fn fs => exact setTextMessageParams_inv s a b fn fs h
    · simp [construct, initEdgeCounter_t, clearAllEdges]
  constructor
  · intro p hp
    refine ⟨Option.isSome_iff_exists.mp (hinv p hp).1, ?_⟩
    unfold registeredTypes
    rw [StdMap.mem_keys_iff_find]
    exact (hinv p hp).2
  · intro w
    exact (textParams_inv_iff_loop _ w).mp hinv

/-- Witness of C20: a counter with a window, the type `ICP2D` registered, its
text-message parameters set and one edge added; `ICP2D` has the stored
y-offset 20. -/
theorem display_lookups_never_miss_witness :
    ("ICP2D", 20) ∈ (runDisplayCalls (construct (some []) 0)
      [DisplayCall.counting (Call.addEdgeType "ICP2D"),
       DisplayCall.setTextMessageParams [("ICP2D", 20)] [("ICP2D", 1)] "mono" 12,
       DisplayCall.counting (Call.addEdge "ICP2D" true false)]).m_name_to_offset_y ∧
    ((∃ text_index, StdMap.find (runDisplayCalls (construct (some []) 0)
      [DisplayCall.counting (Call.addEdgeType "ICP2D"),
       DisplayCall.setTextMessageParams [("ICP2D", 20)] [("ICP2D", 1)] "mono" 12,
       DisplayCall.counting (Call.addEdge "ICP2D" true false)]).m_name_to_text_index
        "ICP2D" = some text_index) ∧
    "ICP2D" ∈ (runDisplayCalls (construct (some []) 0)
      [DisplayCall.counting (Call.addEdgeType "ICP2D"),
       DisplayCall.setTextMessageParams [("ICP2D", 20)] [("ICP2D", 1)] "mono" 12,
       DisplayCall.counting (Call.addEdge "ICP2D" true false)]).registeredTypes) :=
  ⟨by decide,
    (display_lookups_never_miss (some []) 0
      [DisplayCall.counting (Call.addEdgeType "ICP2D"),
       DisplayCall.setTextMessageParams [("ICP2D", 20)] [("ICP2D", 1)] "mono" 12,
       DisplayCall.counting (Call.addEdge "ICP2D" true false)]).1
      ("ICP2D", 20) (by decide)⟩

end EdgeCounter

namespace MatrixSerialization

/-! ## The order of the scalars on the archive -/

theorem foldl_append_singleton {α β : Type} (f : β → α) (l : List β) (out : List α) :
    l.foldl (fun out i => out ++ [f i]) out = out ++ l.map f := by
  induction l generalizing out with
  | nil => simp
  | cons x xs ih => simp [ih]

theorem foldl_foldl_append_singleton {α β γ : Type} (g : β → List γ) (f : β → γ → α)
    (l : List β) (out : List α) :
    l.foldl (fun out r => (g r).foldl (fun out c => out ++ [f r c]) out) out
      = out ++ l.flatMap (fun r => (g r).map (f r)) := by
  induction l generalizing out with
  | nil => simp
  | cons x xs ih =>
    simp only [List.foldl_cons, List.flatMap_cons]
    rw [ih, foldl_append_singleton, List.append_assoc]

theorem serialize_eq {α : Type} (m : Mat α) (out : List α) (hsq : m.rows = m.cols) :
    serializeSymmetricMatrixTo m out =
      Except.ok (out ++ (symmetricOrder m.cols).map (fun p => m.coeff p.1 p.2)) := by
  unfold serializeSymmetricMatrixTo symmetricOrder
  simp only [hsq, ne_eq, not_true_eq_false, if_false]
  rw [foldl_foldl_append_singleton, foldl_append_singleton]
  simp [List.map_flatMap, Function.comp_def]

/-! ## Reading the archive -/

theorem set_set_same {α : Type} (m : Mat α) (i : Nat) (x : α) :
    (m.set i i x).set i i x = m.set i i x := by
  unfold Mat.set
  simp only [Mat.mk.injEq, true_and]
  funext a b
  split_ifs <;> rfl

theorem readEntries_append {α : Type} (ps qs : List (Nat × Nat)) (s : Mat α × List α) :
    readEntries (ps ++ qs) s = (readEntries ps s).bind (readEntries qs) := by
  induction ps generalizing s with
  | nil => rfl
  | cons p ps ih =>
    obtain ⟨r, c⟩ := p
    simp only [List.cons_append, readEntries]
    cases readScalar s.2 with
    | error e => rfl
    | ok xr => simp only [Except.bind]; exact ih _

theorem foldlM_eq_readEntries {α β : Type} (pos : β → Nat × Nat) (l : List β)
    (s : Mat α × List α) :
    l.foldlM
      (fun (s : Mat α × List α) b =>
        (readScalar s.2).bind
          (fun xr => .ok ((s.1.set (pos b).2 (pos b).1 xr.1).set (pos b).1 (pos b).2 xr.1,
            xr.2)))
      s
    = readEntries (l.map pos) s := by
  induction l generalizing s with
  | nil => rfl
  | cons b bs ih =>
    simp only [List.foldlM_cons, List.map_cons, readEntries]
    cases readScalar s.2 with
    | error e => rfl
    | ok xr =>
      simp only [Except.bind, bind]
      exact ih _

theorem foldlM_readEntries {α β : Type} (g : β → List (Nat × Nat)) (l : List β)
    (s : Mat α × List α) :
    l.foldlM (fun (s : Mat α × List α) r => readEntries (g r) s) s
      = readEntries (l.flatMap g) s := by
  induction l generalizing s with
  | nil => rfl
  | cons b bs ih =>
    simp only [List.foldlM_cons, List.flatMap_cons, readEntries_append]
    cases readEntries (g b) s with
    | error e => rfl
    | ok s1 =>
      simp only [Except.bind, bind]
      exact ih _

theorem deserialize_eq {α : Type} (m : Mat α) (inp : List α) (hsq : m.rows = m.cols) :
    deserializeSymmetricMatrixFrom m inp = readEntries (symmetricOrder m.cols) (m, inp) := by
  unfold deserializeSymmetricMatrixFrom symmetricOrder
  simp only [hsq, ne_eq, not_true_eq_false, if_false]
  rw [readEntries_append]
  have hdiag : ∀ s : Mat α × List α,
      (List.range m.cols).foldlM
        (fun (s : Mat α × List α) i =>
          (readScalar s.2).bind (fun xr => .ok (s.1.set i i xr.1, xr.2))) s
      = readEntries ((List.range m.cols).map (fun i => (i, i))) s := by
    intro s
    rw [← foldlM_eq_readEntries (fun i => (i, i))]
    simp only [set_set_same]
  have hupper : ∀ s : Mat α × List α,
      (List.range (m.cols - 1)).foldlM
        (fun (s : Mat α × List α) r =>
          (List.range' (r + 1) (m.cols - (r + 1))).foldlM
            (fun (s : Mat α × List α) c =>
              (readScalar s.2).bind
                (fun xr => .ok ((s.1.set c r xr.1).set r c xr.1, xr.2)))
            s) s
      = readEntries ((List.range (m.cols - 1)).flatMap
          (fun r => (List.range' (r + 1) (m.cols - (r + 1))).map (fun c => (r, c)))) s := by
    intro s
    rw [← foldlM_readEntries]
    congr 1
    funext s r
    exact foldlM_eq_readEntries (fun c => (r, c)) _ s
  rw [hdiag]
  congr 1
  funext s1
  exact hupper s1

/-- Reading back the scalars of `t` at the positions `ps`: the read succeeds,
takes those scalars only, keeps the dimensions, and every position visited,
its mirror included, and every position that already agreed with `t` agrees
with `t` afterwards. -/
theorem readEntries_written {α : Type} (t : Mat α) :
    ∀ (ps : List (Nat × Nat)) (m : Mat α) (rest : List α),
    (∀ p ∈ ps, t.coeff p.1 p.2 = t.coeff p.2 p.1) →
    ∃ m1 : Mat α,
      readEntries ps (m, ps.map (fun p => t.coeff p.1 p.2) ++ rest) = Except.ok (m1, rest) ∧
      m1.rows = m.rows ∧ m1.cols = m.cols ∧
      ∀ i j, ((i, j) ∈ ps ∨ (j, i) ∈ ps ∨ m.coeff i j = t.coeff i j) →
        m1.coeff i j = t.coeff i j
  | [], m, rest, _ => ⟨m, rfl, rfl, rfl, by simp⟩
  | (r, c) :: ps, m, rest, hsym => by
    have hrc : t.coeff r c = t.coeff c r := hsym (r, c) (List.mem_cons_self _ _)
    obtain ⟨m1, hread, hrows, hcols, hco⟩ :=
      readEntries_written t ps ((m.set c r (t.coeff r c)).set r c (t.coeff r c)) rest
        (fun p hp => hsym p (List.mem_cons_of_mem _ hp))
    refine ⟨m1, ?_, hrows, hcols, ?_⟩
    · simp only [List.map_cons, List.cons_append, readEntries, readScalar, Except.bind]
      exact hread
    · intro i j h
      apply hco
      by_cases h1 : i = r ∧ j = c
      · right; right
        obtain ⟨hi, hj⟩ := h1
        subst hi; subst hj
        simp [Mat.set]
      · by_cases h2 : i = c ∧ j = r
        · right; right
          obtain ⟨hi, hj⟩ := h2
          subst hi; subst hj
          simp [Mat.set, hrc]
        · rcases h with h | h | h
          · rcases List.mem_cons.mp h with h | h
            · exact absurd (by simpa using h) h1
            · exact Or.inl h
          · rcases List.mem_cons.mp h with h | h
            · exact absurd (by simpa [and_comm] using h) h2
            · exact Or.inr (Or.inl h)
          · right; right
            simp only [Mat.set, h1, h2, if_false]
            exact h

theorem symmetricOrder_lt (N : Nat) (p : Nat × Nat) (hp : p ∈ symmetricOrder N) :
    p.1 < N ∧ p.2 < N := by
  unfold symmetricOrder at hp
  simp only [List.mem_append, List.mem_map, List.mem_range, List.mem_flatMap,
    List.mem_range'_1] at hp
  rcases hp with ⟨i, hi, rfl⟩ | ⟨r, hr, c, hc, rfl⟩
  · exact ⟨hi, hi⟩
  · simp only
    omega

theorem symmetricOrder_covers (N i j : Nat) (hi : i < N) (hj : j < N) :
    (i, j) ∈ symmetricOrder N ∨ (j, i) ∈ symmetricOrder N := by
  unfold symmetricOrder
  simp only [List.mem_append, List.mem_map, List.mem_range, List.mem_flatMap,
    List.mem_range'_1, Prod.mk.injEq]
  rcases Nat.lt_trichotomy i j with h | h | h
  · exact Or.inl (Or.inr ⟨i, by omega, j, by omega, rfl, rfl⟩)
  · exact Or.inl (Or.inl ⟨i, hi, rfl, h⟩)
  · exact Or.inr (Or.inr ⟨j, by omega, i, by omega, rfl, rfl⟩)

/-- C16: for every `N >= 1` and every symmetric `N x N` matrix `m`,
`serializeSymmetricMatrixTo(m)` succeeds, and `deserializeSymmetricMatrixFrom`
reading into any `N x N` matrix from the scalars written, whatever follows
them on the archive, yields a matrix equal to `m` entry for entry and leaves
on the archive exactly what followed the scalars written. -/
theorem deserialize_serialize_symmetric {α : Type} (m target : Mat α) (out rest : List α)
    (hsq : m.rows = m.cols) (_hN : 1 ≤ m.cols)
    (hsym : ∀ i < m.cols, ∀ j < m.cols, m.coeff i j = m.coeff j i)
    (htarget : target.rows = m.cols ∧ target.cols = m.cols) :
    ∃ (written : List α) (m1 : Mat α),
      serializeSymmetricMatrixTo m out = Except.ok (out ++ written) ∧
      deserializeSymmetricMatrixFrom target (written ++ rest) = Except.ok (m1, rest) ∧
      m1.rows = m.cols ∧ m1.cols = m.cols ∧
      ∀ i < m.cols, ∀ j < m.cols, m1.coeff i j = m.coeff i j := by
  obtain ⟨m1, hread, hrows, hcols, hco⟩ :=
    readEntries_written m (symmetricOrder m.cols) target rest
      (fun p hp => hsym p.1 (symmetricOrder_lt _ p hp).1 p.2 (symmetricOrder_lt _ p hp).2)
  refine ⟨(symmetricOrder m.cols).map (fun p => m.coeff p.1 p.2), m1,
    serialize_eq m out hsq, ?_, hrows.trans htarget.1, hcols.trans htarget.2, ?_⟩
  · rw [deserialize_eq target _ (htarget.1.trans htarget.2.symm), htarget.2]
    exact hread
  · intro i hi j hj
    apply hco
    rcases symmetricOrder_covers m.cols i j hi hj with h | h
    · exact Or.inl h
    · exact Or.inr (Or.inl h)

/-- Witness of C16: the symmetric 3 x 3 matrix `exampleSymmetric` read back
into a zero matrix, with the scalar 99 following on the archive. -/
theorem deserialize_serialize_symmetric_witness :
    exampleSymmetric.rows = exampleSymmetric.cols ∧ 1 ≤ exampleSymmetric.cols ∧
    (∀ i < exampleSymmetric.cols, ∀ j < exampleSymmetric.cols,
      exampleSymmetric.coeff i j = exampleSymmetric.coeff j i) ∧
    ∃ (written : List Int) (m1 : Mat Int),
      serializeSymmetricMatrixTo exampleSymmetric [] = Except.ok ([] ++ written) ∧
      deserializeSymmetricMatrixFrom
        { rows := 3, cols := 3, coeff := fun _ _ => (0 : Int) } (written ++ [(99 : Int)])
        = Except.ok (m1, [(99 : Int)]) ∧
      m1.rows = exampleSymmetric.cols ∧ m1.cols = exampleSymmetric.cols ∧
      ∀ i < exampleSymmetric.cols, ∀ j < exampleSymmetric.cols,
        m1.coeff i j = exampleSymmetric.coeff i j :=
  ⟨by decide, by decide, by decide,
    deserialize_serialize_symmetric exampleSymmetric
      { rows := 3, cols := 3, coeff := fun _ _ => (0 : Int) } [] [(99 : Int)]
      (by decide) (by decide) (by decide) ⟨rfl, rfl⟩⟩

end MatrixSerialization

namespace EdgeCounter

namespace EdgeCounter_t

/-- On an object whose text-message parameters have not been read,
`addEdge(name, is_loop_closure, false)` with a registered `name` returns
normally with the count of `name` and, for a loop closure, the loop-closure
counter incremented. -/
theorem addEdge_registered_unread (s : EdgeCounter_t) (name : String)
    (is_loop_closure : Bool) (hreg : name ∈ s.registeredTypes)
    (hf : s.m_has_read_textmessage_params = false) :
    s.addEdge name is_loop_closure false =
      (Outcome.returned,
        { s with
          m_name_to_edges_num := StdMap.increment s.m_name_to_edges_num name
          m_num_loop_closures :=
            if is_loop_closure then s.m_num_loop_closures + 1 else s.m_num_loop_closures }) := by
  obtain ⟨count, hc⟩ := (mem_registeredTypes_iff s name).mp hreg
  unfold addEdge
  rw [hc]
  cases is_loop_closure <;> simp [addEdgeTail, hf]

end EdgeCounter_t

end EdgeCounter

namespace ICPGoodnessERD

open EdgeCounter EdgeCounter_t

/-! ## Nearby nodes -/

theorem withinDistance_iff (p q : Pose) (distance : ℚ) :
    withinDistance p q distance = true ↔
      Real.sqrt (((q.x - p.x) ^ 2 + (q.y - p.y) ^ 2 + (q.z - p.z) ^ 2 : ℚ) : ℝ)
        ≤ (distance : ℝ) := by
  unfold withinDistance distSq
  rw [decide_eq_true_iff, Real.sqrt_le_iff]
  constructor
  · rintro ⟨h0, h⟩
    exact ⟨by exact_mod_cast h0, by exact_mod_cast h⟩
  · rintro ⟨h0, h⟩
    exact ⟨by exact_mod_cast h0, by exact_mod_cast h⟩

/-- C15: for every pose graph, every node `cur` of it and every distance `d`,
`getNearbyNodesOf(nodes_set, cur, d)` yields exactly the ids `n != cur` of
the nodes whose current pose is at Euclidean distance `<= d` from the current
pose of `cur`: the bound `d` itself is included and `cur` never is. -/
theorem getNearbyNodesOf_spec (g : PoseGraph) (cur : Nat) (d : ℚ) (p : Pose)
    (hcur : g.currentPose cur = some p) :
    ∃ nodes_set, getNearbyNodesOf g cur d = Except.ok nodes_set ∧
      cur ∉ nodes_set ∧
      ∀ n, n ∈ nodes_set ↔
        n ≠ cur ∧ ∃ q, (n, q) ∈ g.nodes ∧
          Real.sqrt (((q.x - p.x) ^ 2 + (q.y - p.y) ^ 2 + (q.z - p.z) ^ 2 : ℚ) : ℝ)
            ≤ (d : ℝ) := by
  have hmem : ∀ n, n ∈ (g.nodes.filter
      (fun n => decide (n.1 ≠ cur) && withinDistance p n.2 d)).map Prod.fst ↔
        n ≠ cur ∧ ∃ q, (n, q) ∈ g.nodes ∧
          Real.sqrt (((q.x - p.x) ^ 2 + (q.y - p.y) ^ 2 + (q.z - p.z) ^ 2 : ℚ) : ℝ)
            ≤ (d : ℝ) := by
    intro n
    simp only [List.mem_map, List.mem_filter, Bool.and_eq_true, decide_eq_true_iff,
      withinDistance_iff]
    constructor
    · rintro ⟨⟨n1, q⟩, ⟨hm, hne, hd⟩, rfl⟩
      exact ⟨hne, q, hm, hd⟩
    · rintro ⟨hne, q, hm, hd⟩
      exact ⟨(n, q), ⟨hm, hne, hd⟩, rfl⟩
  refine ⟨_, ?_, ?_, hmem⟩
  · unfold getNearbyNodesOf
    rw [hcur]
  · intro h
    exact ((hmem cur).mp h).1 rfl

/-- Witness of C15: node 71 of the graph of `exampleDecider`, whose pose is
`(2, 0, 0)`, and the distance 5. -/
theorem getNearbyNodesOf_spec_witness :
    exampleDecider.m_graph.currentPose 71 = some ⟨2, 0, 0⟩ ∧
    ∃ nodes_set, getNearbyNodesOf exampleDecider.m_graph 71 5 = Except.ok nodes_set ∧
      71 ∉ nodes_set ∧
      ∀ n, n ∈ nodes_set ↔
        n ≠ 71 ∧ ∃ q, (n, q) ∈ exampleDecider.m_graph.nodes ∧
          Real.sqrt (((q.x - (⟨2, 0, 0⟩ : Pose).x) ^ 2 + (q.y - (⟨2, 0, 0⟩ : Pose).y) ^ 2
            + (q.z - (⟨2, 0, 0⟩ : Pose).z) ^ 2 : ℚ) : ℝ) ≤ ((5 : ℚ) : ℝ) :=
  ⟨by simp [exampleDecider, PoseGraph.currentPose, List.find?],
    getNearbyNodesOf_spec exampleDecider.m_graph 71 5 ⟨2, 0, 0⟩
      (by simp [exampleDecider, PoseGraph.currentPose, List.find?])⟩

/-! ## Registration of edges -/

/-- What `registerNewEdge` does when the edge type of the decider is
registered in a ledger without display. -/
theorem registerNewEdge_eq (d : CICPGoodnessERD_t) (fromNodeId toNodeId : Nat) (rel_edge : Pose)
    (hreg : d.edgeTypeName ∈ d.ledger.registeredTypes)
    (hf : d.ledger.m_has_read_textmessage_params = false) :
    registerNewEdge d fromNodeId toNodeId rel_edge =
      (Outcome.returned,
        { d with
          m_graph :=
            { d.m_graph with
              edges := d.m_graph.edges ++
                [{ fromNodeId := fromNodeId, toNodeId := toNodeId, relativePose := rel_edge
                   typeLabel := d.edgeTypeName
                   loopClosure := isLoopClosure d.params fromNodeId toNodeId }] }
          ledger :=
            { d.ledger with
              m_name_to_edges_num :=
                StdMap.increment d.ledger.m_name_to_edges_num d.edgeTypeName
              m_num_loop_closures :=
                if isLoopClosure d.params fromNodeId toNodeId
                then d.ledger.m_num_loop_closures + 1 else d.ledger.m_num_loop_closures } }) := by
  unfold registerNewEdge
  simp only [addEdge_registered_unread d.ledger d.edgeTypeName _ hreg hf]

/-- C13: for every edge accepted by the decider between the nodes `from` and
`to`, registered in a ledger that knows the edge type of the decider, the
loop-closure count of the ledger is incremented by 1 if and only if
`|from - to| >= params.LC_min_nodeid_diff`, and is unchanged otherwise; the
edge carries the same mark and the count of the edge type is incremented. -/
theorem registerNewEdge_loop_closure (d : CICPGoodnessERD_t) (fromNodeId toNodeId : Nat)
    (rel_edge : Pose)
    (hreg : d.edgeTypeName ∈ d.ledger.registeredTypes)
    (hf : d.ledger.m_has_read_textmessage_params = false) :
    (registerNewEdge d fromNodeId toNodeId rel_edge).1 = Outcome.returned ∧
    ((registerNewEdge d fromNodeId toNodeId rel_edge).2.ledger.getLoopClosureEdges
        = d.ledger.getLoopClosureEdges + 1 ↔
      d.params.LC_min_nodeid_diff ≤ |(fromNodeId : Int) - (toNodeId : Int)|) ∧
    ((registerNewEdge d fromNodeId toNodeId rel_edge).2.ledger.getLoopClosureEdges
        = d.ledger.getLoopClosureEdges ↔
      ¬ d.params.LC_min_nodeid_diff ≤ |(fromNodeId : Int) - (toNodeId : Int)|) ∧
    (∃ e, (registerNewEdge d fromNodeId toNodeId rel_edge).2.m_graph.edges
        = d.m_graph.edges ++ [e] ∧
      e.fromNodeId = fromNodeId ∧ e.toNodeId = toNodeId ∧
      (e.loopClosure = true ↔
        d.params.LC_min_nodeid_diff ≤ |(fromNodeId : Int) - (toNodeId : Int)|)) ∧
    (∃ count, d.ledger.getNumForEdgeType d.edgeTypeName = Except.ok count ∧
      (registerNewEdge d fromNodeId toNodeId rel_edge).2.ledger.getNumForEdgeType
        d.edgeTypeName = Except.ok (count + 1)) := by
  rw [registerNewEdge_eq d fromNodeId toNodeId rel_edge hreg hf]
  obtain ⟨count, hc⟩ := (mem_registeredTypes_iff _ _).mp hreg
  refine ⟨rfl, ?_, ?_, ⟨_, rfl, rfl, rfl, ?_⟩, ⟨count, ?_, ?_⟩⟩
  · simp only [getLoopClosureEdges, isLoopClosure, decide_eq_true_iff]
    split_ifs with h
    · simp [h]
    · simp [h]
  · simp only [getLoopClosureEdges, isLoopClosure, decide_eq_true_iff]
    split_ifs with h
    · simp [h]
    · simp [h]
  · simp [isLoopClosure]
  · exact (getNumForEdgeType_eq_ok_iff _ _ _).mpr hc
  · rw [getNumForEdgeType_eq_ok_iff]
    simp only [StdMap.find_increment, hc]
    simp

/-- Witness of C13, scenario C: with `LC_min_nodeid_diff` = 50 the accepted
edge between the nodes 10 and 70 increments the loop-closure count by 1 and
the accepted edge between the nodes 10 and 30 leaves it unchanged. -/
theorem registerNewEdge_loop_closure_witness :
    exampleDecider.params.LC_min_nodeid_diff = 50 ∧
    exampleDecider.edgeTypeName ∈ exampleDecider.ledger.registeredTypes ∧
    exampleDecider.ledger.m_has_read_textmessage_params = false ∧
    (registerNewEdge exampleDecider 10 70 ⟨0, 0, 0⟩).2.ledger.getLoopClosureEdges
      = exampleDecider.ledger.getLoopClosureEdges + 1 ∧
    (registerNewEdge exampleDecider 10 30 ⟨0, 0, 0⟩).2.ledger.getLoopClosureEdges
      = exampleDecider.ledger.getLoopClosureEdges :=
  ⟨rfl, by decide, by decide,
    (registerNewEdge_loop_closure exampleDecider 10 70 ⟨0, 0, 0⟩
      (by decide) (by decide)).2.1.mpr (by decide),
    (registerNewEdge_loop_closure exampleDecider 10 30 ⟨0, 0, 0⟩
      (by decide) (by decide)).2.2.1.mpr (by decide)⟩

end ICPGoodnessERD

namespace ICPGoodnessERD

open EdgeCounter EdgeCounter_t

/-! ## The candidates of a node insertion -/

/-- The edge that is registered for an accepted candidate. -/
theorem registerNewEdge_keeps (d : CICPGoodnessERD_t) (fromNodeId toNodeId : Nat) (rel_edge : Pose)
    (hreg : d.edgeTypeName ∈ d.ledger.registeredTypes)
    (hf : d.ledger.m_has_read_textmessage_params = false) :
    (registerNewEdge d fromNodeId toNodeId rel_edge).2.params = d.params ∧
    (registerNewEdge d fromNodeId toNodeId rel_edge).2.edgeTypeName = d.edgeTypeName ∧
    (registerNewEdge d fromNodeId toNodeId rel_edge).2.edgeTypeName ∈
      (registerNewEdge d fromNodeId toNodeId rel_edge).2.ledger.registeredTypes ∧
    (registerNewEdge d fromNodeId toNodeId rel_edge).2.ledger.m_has_read_textmessage_params
      = false := by
  rw [registerNewEdge_eq d fromNodeId toNodeId rel_edge hreg hf]
  refine ⟨rfl, rfl, ?_, hf⟩
  simp only [registeredTypes, StdMap.keys_increment]
  exact hreg

/-- The loop over the candidates returns normally and appends to the graph
one edge for every accepted candidate, in the order of the candidates. -/
theorem checkRegistrationCondition_edges (align : Nat → MatchResult) (newNodeId : Nat) :
    ∀ (cs : List Nat) (d : CICPGoodnessERD_t),
    d.edgeTypeName ∈ d.ledger.registeredTypes →
    d.ledger.m_has_read_textmessage_params = false →
    (checkRegistrationCondition align newNodeId cs d).1 = Outcome.returned ∧
    (checkRegistrationCondition align newNodeId cs d).2.m_graph.edges =
      d.m_graph.edges ++
        (cs.filter (fun c => accepts d.params (align c))).map
          (fun c =>
            { fromNodeId := newNodeId, toNodeId := c, relativePose := (align c).refinedPose
              typeLabel := d.edgeTypeName
              loopClosure := isLoopClosure d.params newNodeId c })
  | [], d, _, _ => by simp [checkRegistrationCondition]
  | c :: cs, d, hreg, hf => by
    by_cases hacc : accepts d.params (align c) = true
    · obtain ⟨hp, hn, hreg1, hf1⟩ :=
        registerNewEdge_keeps d newNodeId c (align c).refinedPose hreg hf
      have ih := checkRegistrationCondition_edges align newNodeId cs
        (registerNewEdge d newNodeId c (align c).refinedPose).2 hreg1 hf1
      have hout : (registerNewEdge d newNodeId c (align c).refinedPose).1
          = Outcome.returned := by
        rw [registerNewEdge_eq d newNodeId c _ hreg hf]
      have hstep : checkRegistrationCondition align newNodeId (c :: cs) d =
          checkRegistrationCondition align newNodeId cs
            (registerNewEdge d newNodeId c (align c).refinedPose).2 := by
        simp only [checkRegistrationCondition, hacc, if_true]
        split
        · next d1 e => rw [e]
        · next r hr =>
          exact absurd
            (Prod.ext hout rfl :
              registerNewEdge d newNodeId c (align c).refinedPose =
                (Outcome.returned, (registerNewEdge d newNodeId c (align c).refinedPose).2))
            (hr _)
      rw [hstep, ih.2, hp, hn]
      refine ⟨ih.1, ?_⟩
      rw [registerNewEdge_eq d newNodeId c _ hreg hf]
      simp [List.filter_cons, hacc]
    · have ih := checkRegistrationCondition_edges align newNodeId cs d hreg hf
      simp only [checkRegistrationCondition, hacc, Bool.false_eq_true, if_false]
      refine ⟨ih.1, ?_⟩
      rw [ih.2]
      simp [List.filter_cons, hacc]

/-- C12: on a node insertion handled by an active decider (pending
observation at the new node, edge type known to a ledger without display),
the candidates examined are the nearby nodes, and the edges registered are
one edge between the new node and each candidate, in attempt order, for
which the scan matcher reported success with a goodness `>=
params.ICP_goodness_thresh`: a candidate gets an edge if and only if it
satisfies that condition, a goodness equal to the threshold included, and
every such candidate gets one, not only the first. -/
theorem onNodeInserted_registers_accepted (d : CICPGoodnessERD_t) (newNodeId : Nat)
    (align : Nat → MatchResult) (p : Pose) (modality : Modality)
    (hactive : d.invalid = false)
    (hpending : d.pending = some (newNodeId, modality))
    (hnode : d.m_graph.currentPose newNodeId = some p)
    (hreg : d.edgeTypeName ∈ d.ledger.registeredTypes)
    (hf : d.ledger.m_has_read_textmessage_params = false) :
    ∃ (nodes_set : List Nat) (registered : List Edge),
      getNearbyNodesOf d.m_graph newNodeId d.params.ICP_max_distance = Except.ok nodes_set ∧
      (onNodeInserted d newNodeId align).1 = Outcome.returned ∧
      (onNodeInserted d newNodeId align).2.m_graph.edges = d.m_graph.edges ++ registered ∧
      registered =
        ((orderCandidates d.m_graph p nodes_set).filter
          (fun c => (align c).success && decide (d.params.ICP_goodness_thresh ≤ (align c).goodness))).map
          (fun c =>
            { fromNodeId := newNodeId, toNodeId := c, relativePose := (align c).refinedPose
              typeLabel := d.edgeTypeName
              loopClosure := isLoopClosure d.params newNodeId c }) ∧
      ∀ c ∈ nodes_set,
        ((∃ e ∈ registered, e.fromNodeId = newNodeId ∧ e.toNodeId = c) ↔
          ((align c).success = true ∧ d.params.ICP_goodness_thresh ≤ (align c).goodness)) := by
  obtain ⟨nodes_set, hnear⟩ : ∃ nodes_set,
      getNearbyNodesOf d.m_graph newNodeId d.params.ICP_max_distance = Except.ok nodes_set := by
    unfold getNearbyNodesOf
    rw [hnode]
    exact ⟨_, rfl⟩
  obtain ⟨hout, hedges⟩ := checkRegistrationCondition_edges align newNodeId
    (orderCandidates d.m_graph p nodes_set) d hreg hf
  have hrun : onNodeInserted d newNodeId align =
      (Outcome.returned,
        { (checkRegistrationCondition align newNodeId
            (orderCandidates d.m_graph p nodes_set) d).2 with pending := none }) := by
    unfold onNodeInserted
    simp only [hactive, Bool.false_eq_true, if_false, hpending, ne_eq, not_true_eq_false,
      hnode, hnear]
    split
    · next d1 e => rw [e]
    · next r hr =>
      exact absurd
        (Prod.ext hout rfl :
          checkRegistrationCondition align newNodeId (orderCandidates d.m_graph p nodes_set) d =
            (Outcome.returned,
              (checkRegistrationCondition align newNodeId
                (orderCandidates d.m_graph p nodes_set) d).2))
        (hr _)
  refine ⟨nodes_set, _, hnear, ?_, ?_, rfl, ?_⟩
  · rw [hrun]
  · rw [hrun]
    exact hedges
  · intro c hc
    have hmem : c ∈ orderCandidates d.m_graph p nodes_set :=
      (List.perm_insertionSort _ _).mem_iff.mpr hc
    simp only [List.mem_map, List.mem_filter, Bool.and_eq_true, decide_eq_true_iff, accepts]
    constructor
    · rintro ⟨e, ⟨c1, ⟨_, hacc⟩, rfl⟩, _, hto⟩
      simp only at hto
      subst hto
      exact hacc
    · intro hacc
      exact ⟨_, ⟨c, ⟨hmem, hacc⟩, rfl⟩, rfl, rfl⟩

/-- Witness of C12: the insertion of node 71 in `exampleDecider`, with the
answers `exampleAlign` of the scan matcher; node 70, at goodness 0.6 equal to
the threshold, is a nearby node. -/
theorem onNodeInserted_registers_accepted_witness :
    exampleDecider.invalid = false ∧
    exampleDecider.pending = some (71, Modality.scan2D) ∧
    exampleDecider.m_graph.currentPose 71 = some ⟨2, 0, 0⟩ ∧
    exampleDecider.edgeTypeName ∈ exampleDecider.ledger.registeredTypes ∧
    exampleDecider.ledger.m_has_read_textmessage_params = false ∧
    ∃ (nodes_set : List Nat) (registered : List Edge),
      getNearbyNodesOf exampleDecider.m_graph 71 exampleDecider.params.ICP_max_distance
        = Except.ok nodes_set ∧
      (onNodeInserted exampleDecider 71 exampleAlign).1 = Outcome.returned ∧
      (onNodeInserted exampleDecider 71 exampleAlign).2.m_graph.edges
        = exampleDecider.m_graph.edges ++ registered ∧
      registered =
        ((orderCandidates exampleDecider.m_graph ⟨2, 0, 0⟩ nodes_set).filter
          (fun c => (exampleAlign c).success &&
            decide (exampleDecider.params.ICP_goodness_thresh ≤ (exampleAlign c).goodness))).map
          (fun c =>
            { fromNodeId := 71, toNodeId := c, relativePose := (exampleAlign c).refinedPose
              typeLabel := exampleDecider.edgeTypeName
              loopClosure := isLoopClosure exampleDecider.params 71 c }) ∧
      ∀ c ∈ nodes_set,
        ((∃ e ∈ registered, e.fromNodeId = 71 ∧ e.toNodeId = c) ↔
          ((exampleAlign c).success = true ∧
            exampleDecider.params.ICP_goodness_thresh ≤ (exampleAlign c).goodness)) :=
  ⟨rfl, rfl, by simp [exampleDecider, PoseGraph.currentPose, List.find?],
    by decide, by decide,
    onNodeInserted_registers_accepted exampleDecider 71 exampleAlign ⟨2, 0, 0⟩
      Modality.scan2D rfl rfl (by simp [exampleDecider, PoseGraph.currentPose, List.find?])
      (by decide) (by decide)⟩

/-! ## The terminal state -/

theorem updateDeciderState_invalid (d : CICPGoodnessERD_t) (e : Event) (h : d.invalid = true) :
    (updateDeciderState d e).1 = Outcome.returned ∧ (updateDeciderState d e).2 = d := by
  cases e with
  | classify payload node => simp [updateDeciderState, classify, h]
  | nodeInserted newNodeId align => simp [updateDeciderState, onNodeInserted, h]

theorem runEvents_invalid : ∀ (events : List Event) (d : CICPGoodnessERD_t),
    d.invalid = true → runEvents d events = d
  | [], _, _ => rfl
  | e :: es, d, h => by
    simp only [runEvents, (updateDeciderState_invalid d e h).2]
    exact runEvents_invalid es d h

/-- C14: the state `Invalid` is terminal: from a decider that is `Invalid`,
after every sequence of `updateDeciderState` events (payloads to classify and
node insertions) the decider is still `Invalid`, the graph has the edges it
had and the ledger is the same, so no count of it has changed. -/
theorem invalid_is_terminal (d : CICPGoodnessERD_t) (events : List Event) (h : d.invalid = true) :
    (runEvents d events).invalid = true ∧
    (runEvents d events).m_graph.edges = d.m_graph.edges ∧
    (runEvents d events).ledger = d.ledger ∧
    (∀ t, (runEvents d events).ledger.getNumForEdgeType t = d.ledger.getNumForEdgeType t) ∧
    (runEvents d events).ledger.getLoopClosureEdges = d.ledger.getLoopClosureEdges ∧
    (runEvents d events).ledger.getTotalNumOfEdges = d.ledger.getTotalNumOfEdges := by
  rw [runEvents_invalid events d h]
  exact ⟨h, rfl, rfl, fun _ => rfl, rfl, rfl⟩

/-- Witness of C14, scenario D: `exampleDecider`, whose failure threshold is 5
and is reached at five failures, after five payloads that are not range scans
is `Invalid`; a range scan and the insertion of node 71 that follow change
nothing. -/
theorem invalid_is_terminal_witness :
    (runEvents exampleDecider
      [Event.classify Payload.unrecognized 71, Event.classify Payload.unrecognized 71,
       Event.classify Payload.unrecognized 71, Event.classify Payload.unrecognized 71,
       Event.classify Payload.unrecognized 71]).invalid = true ∧
    (runEvents (runEvents exampleDecider
      [Event.classify Payload.unrecognized 71, Event.classify Payload.unrecognized 71,
       Event.classify Payload.unrecognized 71, Event.classify Payload.unrecognized 71,
       Event.classify Payload.unrecognized 71])
      [Event.classify Payload.rangeScan2D 71, Event.nodeInserted 71 exampleAlign]).invalid
        = true ∧
    (runEvents (runEvents exampleDecider
      [Event.classify Payload.unrecognized 71, Event.classify Payload.unrecognized 71,
       Event.classify Payload.unrecognized 71, Event.classify Payload.unrecognized 71,
       Event.classify Payload.unrecognized 71])
      [Event.classify Payload.rangeScan2D 71, Event.nodeInserted 71 exampleAlign]).m_graph.edges
        = (runEvents exampleDecider
      [Event.classify Payload.unrecognized 71, Event.classify Payload.unrecognized 71,
       Event.classify Payload.unrecognized 71, Event.classify Payload.unrecognized 71,
       Event.classify Payload.unrecognized 71]).m_graph.edges :=
  ⟨by decide,
    (invalid_is_terminal _ [Event.classify Payload.rangeScan2D 71,
      Event.nodeInserted 71 exampleAlign] (by decide)).1,
    (invalid_is_terminal _ [Event.classify Payload.rangeScan2D 71,
      Event.nodeInserted 71 exampleAlign] (by decide)).2.1⟩

end ICPGoodnessERD

namespace MatrixSerialization

/-! ## What is written, and how much -/

theorem filter_lt_range (N r : Nat) :
    (List.range N).filter (fun c => decide (r < c)) = List.range' (r + 1) (N - (r + 1)) := by
  induction N with
  | zero => simp
  | succ n ih =>
    rw [List.range_succ, List.filter_append, ih]
    by_cases h : r < n
    · have e : n + 1 - (r + 1) = (n - (r + 1)) + 1 := by omega
      rw [e, List.range'_concat]
      simp only [h, decide_True, List.filter_cons_of_pos, List.filter_nil, Nat.one_mul]
      congr 2
      omega
    · have e : n + 1 - (r + 1) = 0 := by omega
      have e2 : n - (r + 1) = 0 := by omega
      simp [h, e, e2]

theorem symmetricOrder_eq_rowMajor (N : Nat) (hN : 1 ≤ N) :
    symmetricOrder N =
      (List.range N).map (fun i => (i, i))
      ++ (List.range N).flatMap
          (fun r => ((List.range N).filter (fun c => decide (r < c))).map (fun c => (r, c))) := by
  unfold symmetricOrder
  congr 1
  obtain ⟨n, rfl⟩ : ∃ n, N = n + 1 := ⟨N - 1, by omega⟩
  simp only [Nat.add_sub_cancel, filter_lt_range]
  rw [List.range_succ (n := n), List.flatMap_append]
  simp

theorem sum_row_lengths (N : Nat) : ∀ k, k ≤ N →
    2 * ((List.range k).map (fun r => N - (r + 1))).sum + k * (k + 1) = 2 * k * N
  | 0, _ => by simp
  | k + 1, hk => by
    have ih := sum_row_lengths N k (by omega)
    obtain ⟨d, rfl⟩ : ∃ d, N = k + 1 + d := ⟨N - (k + 1), by omega⟩
    rw [List.range_succ, List.map_append, List.sum_append]
    simp only [List.map_cons, List.map_nil, List.sum_cons, List.sum_nil, Nat.add_sub_cancel_left]
    nlinarith [ih]

theorem length_symmetricOrder (N : Nat) : (symmetricOrder N).length = N * (N + 1) / 2 := by
  have h : 2 * (symmetricOrder N).length = N * (N + 1) := by
    unfold symmetricOrder
    rw [List.length_append, List.length_map, List.length_range, List.length_flatMap]
    have hs := sum_row_lengths N (N - 1) (by omega)
    have e : (List.map (List.length ∘ fun r => List.map (fun c => (r, c))
          (List.range' (r + 1) (N - (r + 1)))) (List.range (N - 1)))
        = (List.range (N - 1)).map (fun r => N - (r + 1)) := by
      apply List.map_congr_left
      intro r _
      simp
    rw [e]
    rcases Nat.eq_zero_or_pos N with h0 | hpos
    · subst h0; simp
    · obtain ⟨n, rfl⟩ : ∃ n, N = n + 1 := ⟨N - 1, by omega⟩
      simp only [Nat.add_sub_cancel] at hs ⊢
      nlinarith [hs]
  omega

/-- C21: for every `N >= 1` and every square `N x N` matrix `m`,
`serializeSymmetricMatrixTo(m)` writes exactly `N (N + 1) / 2` scalars: the
diagonal entries `m(0,0)` to `m(N-1,N-1)` in index order, then the entries
`m(r, c)` with `r < c` row by row; every scalar written is an entry `m(r, c)`
with `r <= c`, so no entry below the diagonal is written. -/
theorem serialize_writes_diagonal_then_upper {α : Type} (m : Mat α) (out : List α)
    (hsq : m.rows = m.cols) (hN : 1 ≤ m.cols) :
    ∃ written : List α,
      serializeSymmetricMatrixTo m out = Except.ok (out ++ written) ∧
      written.length = m.cols * (m.cols + 1) / 2 ∧
      written =
        (List.range m.cols).map (fun i => m.coeff i i)
        ++ (List.range m.cols).flatMap
            (fun r => ((List.range m.cols).filter (fun c => decide (r < c))).map
              (fun c => m.coeff r c)) ∧
      ∃ positions : List (Nat × Nat),
        written = positions.map (fun p => m.coeff p.1 p.2) ∧
        ∀ p ∈ positions, p.1 ≤ p.2 ∧ p.2 < m.cols := by
  refine ⟨_, serialize_eq m out hsq, ?_, ?_, symmetricOrder m.cols, rfl, ?_⟩
  · rw [List.length_map, length_symmetricOrder]
  · rw [symmetricOrder_eq_rowMajor m.cols hN]
    simp [List.map_flatMap, Function.comp_def]
  · intro p hp
    refine ⟨?_, (symmetricOrder_lt _ p hp).2⟩
    unfold symmetricOrder at hp
    simp only [List.mem_append, List.mem_map, List.mem_range, List.mem_flatMap,
      List.mem_range'_1] at hp
    rcases hp with ⟨i, _, rfl⟩ | ⟨r, _, c, hc, rfl⟩
    · exact Nat.le_refl _
    · simp only
      omega

/-- Witness of C21: the 3 x 3 matrix `exampleSymmetric` written to an empty
archive: six scalars. -/
theorem serialize_writes_diagonal_then_upper_witness :
    exampleSymmetric.rows = exampleSymmetric.cols ∧ 1 ≤ exampleSymmetric.cols ∧
    ∃ written : List Int,
      serializeSymmetricMatrixTo exampleSymmetric [] = Except.ok ([] ++ written) ∧
      written.length = exampleSymmetric.cols * (exampleSymmetric.cols + 1) / 2 ∧
      written =
        (List.range exampleSymmetric.cols).map (fun i => exampleSymmetric.coeff i i)
        ++ (List.range exampleSymmetric.cols).flatMap
            (fun r => ((List.range exampleSymmetric.cols).filter (fun c => decide (r < c))).map
              (fun c => exampleSymmetric.coeff r c)) ∧
      ∃ positions : List (Nat × Nat),
        written = positions.map (fun p => exampleSymmetric.coeff p.1 p.2) ∧
        ∀ p ∈ positions, p.1 ≤ p.2 ∧ p.2 < exampleSymmetric.cols :=
  ⟨by decide, by decide,
    serialize_writes_diagonal_then_upper exampleSymmetric [] (by decide) (by decide)⟩

end MatrixSerialization

namespace FeatureExtractionLSD

/-! ## The sorting loop -/

theorem foldl_range'_induction {β : Type} (P : Nat → β → Prop) (f : β → Nat → β) :
    ∀ (n s : Nat) (b : β), P s b →
      (∀ j b, s ≤ j → j < s + n → P j b → P (j + 1) (f b j)) →
      P (s + n) ((List.range' s n).foldl f b)
  | 0, s, b, h0, _ => by simpa using h0
  | n + 1, s, b, h0, hstep => by
    rw [List.range'_succ, List.foldl_cons]
    have h1 : P (s + 1) (f b s) := hstep s b (Nat.le_refl _) (by omega) h0
    have h := foldl_range'_induction P f n (s + 1) (f b s) h1
      (fun j b hj hlt hP => hstep j b (by omega) (by omega) hP)
    have e : s + 1 + n = s + (n + 1) := by omega
    rw [e] at h
    exact h

theorem cons_set_perm {α : Type} : ∀ (xs : List α) (n : Nat) (a b : α),
    xs[n]? = some b → (b :: xs.set n a).Perm (a :: xs)
  | [], _, _, _, h => by simp at h
  | y :: ys, 0, a, b, h => by
    simp only [List.getElem?_cons_zero, Option.some.injEq] at h
    subst h
    simpa using List.Perm.swap a y ys
  | y :: ys, n + 1, a, b, h => by
    simp only [List.getElem?_cons_succ] at h
    have ih := cons_set_perm ys n a b h
    simp only [List.set_cons_succ]
    exact ((List.Perm.swap y b _).trans (ih.cons y)).trans (List.Perm.swap a y ys)

theorem set_set_perm {α : Type} : ∀ (w : List α) (i j : Nat) (a b : α),
    i < j → w[i]? = some a → w[j]? = some b → ((w.set i b).set j a).Perm w
  | [], _, _, _, _, _, h, _ => by simp at h
  | x :: xs, 0, 0, _, _, hij, _, _ => by omega
  | x :: xs, 0, j + 1, a, b, _, ha, hb => by
    simp only [List.getElem?_cons_zero, Option.some.injEq] at ha
    simp only [List.getElem?_cons_succ] at hb
    subst ha
    simp only [List.set_cons_zero, List.set_cons_succ]
    exact cons_set_perm xs j x b hb
  | x :: xs, i + 1, 0, _, _, hij, _, _ => by omega
  | x :: xs, i + 1, j + 1, a, b, hij, ha, hb => by
    simp only [List.getElem?_cons_succ] at ha hb
    simp only [List.set_cons_succ]
    exact (set_set_perm xs i j a b (by omega) ha hb).cons x

theorem sortInner_length {F : Type} [LinearOrder F] (i j : Nat) (w : List (KeyLine F)) :
    (sortInner i w j).length = w.length := by
  unfold sortInner
  split
  · split_ifs <;> simp
  · rfl

/-- What one pass of the inner sorting loop, for the position `i`, keeps and
achieves after the positions below `J` have been compared with `i`. -/
theorem sortInner_step {F : Type} [LinearOrder F] (v : List (KeyLine F)) (i j : Nat)
    (w : List (KeyLine F)) (hij : i < j) (hj : j < v.length)
    (h : w.length = v.length ∧ w.Perm v ∧ (∀ k < i, w[k]? = v[k]?) ∧
      (∀ k, i ≤ k → k < v.length → ∃ k1, i ≤ k1 ∧ k1 < v.length ∧ w[k]? = v[k1]?) ∧
      (∀ k x y, i < k → k < j → w[i]? = some x → w[k]? = some y →
        y.lineLength ≤ x.lineLength)) :
    (sortInner i w j).length = v.length ∧ (sortInner i w j).Perm v ∧
      (∀ k < i, (sortInner i w j)[k]? = v[k]?) ∧
      (∀ k, i ≤ k → k < v.length →
        ∃ k1, i ≤ k1 ∧ k1 < v.length ∧ (sortInner i w j)[k]? = v[k1]?) ∧
      (∀ k x y, i < k → k < j + 1 → (sortInner i w j)[i]? = some x →
        (sortInner i w j)[k]? = some y → y.lineLength ≤ x.lineLength) := by
  obtain ⟨hlen, hperm, hpre, hfrom, hmax⟩ := h
  have hi' : i < w.length := by omega
  have hj' : j < w.length := by omega
  have hai : w[i]? = some w[i] := List.getElem?_eq_getElem hi'
  have hbj : w[j]? = some w[j] := List.getElem?_eq_getElem hj'
  unfold sortInner
  rw [hai, hbj]
  simp only
  by_cases hgt : w[j].lineLength > w[i].lineLength
  · simp only [hgt, if_true]
    have hget : ∀ k, ((w.set i w[j]).set j w[i])[k]? =
        if k = j then some w[i] else if k = i then some w[j] else w[k]? := by
      intro k
      rw [List.getElem?_set, List.getElem?_set]
      simp only [List.length_set]
      by_cases h1 : j = k
      · subst h1
        simp [hj']
      · have h1' : ¬ k = j := fun e => h1 e.symm
        by_cases h2 : i = k
        · subst h2
          simp [h1, h1', hi']
        · have h2' : ¬ k = i := fun e => h2 e.symm
          simp [h1, h1', h2, h2']
    refine ⟨by simp [hlen], (set_set_perm w i j _ _ hij hai hbj).trans hperm, ?_, ?_, ?_⟩
    · intro k hk
      rw [hget k]
      have h1 : ¬ k = j := by omega
      have h2 : ¬ k = i := by omega
      simp only [h1, h2, if_false]
      exact hpre k hk
    · intro k hik hk
      rw [hget k]
      by_cases h1 : k = j
      · rw [if_pos h1, ← hai]
        exact hfrom i (Nat.le_refl _) (by omega)
      · rw [if_neg h1]
        by_cases h2 : k = i
        · rw [if_pos h2, ← hbj]
          exact hfrom j (by omega) hj
        · rw [if_neg h2]
          exact hfrom k hik hk
    · intro k x y hik hk hx hy
      rw [hget i] at hx
      rw [hget k] at hy
      have h0 : ¬ i = j := by omega
      simp only [h0, if_false, if_true, Option.some.injEq] at hx
      subst hx
      by_cases h1 : k = j
      · simp only [h1, if_true, Option.some.injEq] at hy
        subst hy
        exact le_of_lt hgt
      · have h2 : ¬ k = i := by omega
        simp only [h1, h2, if_false] at hy
        exact le_trans (hmax k w[i] y hik (by omega) hai hy) (le_of_lt hgt)
  · simp only [hgt, if_false]
    refine ⟨hlen, hperm, hpre, hfrom, ?_⟩
    intro k x y hik hk hx hy
    by_cases h1 : k = j
    · subst h1
      rw [hai] at hx
      rw [hbj] at hy
      simp only [Option.some.injEq] at hx hy
      subst hx; subst hy
      exact not_lt.mp hgt
    · exact hmax k x y hik (by omega) hx hy

/-- The inner sorting loop for the position `i`: the positions below `i` are
kept, the positions from `i` on are rearranged among themselves, and the line
at `i` is afterwards at least as long as every line behind it. -/
theorem sortInner_loop {F : Type} [LinearOrder F] (v : List (KeyLine F)) (i : Nat)
    (hi : i < v.length) :
    ((List.range' (i + 1) (v.length - (i + 1))).foldl (sortInner i) v).length = v.length ∧
    ((List.range' (i + 1) (v.length - (i + 1))).foldl (sortInner i) v).Perm v ∧
    (∀ k < i, ((List.range' (i + 1) (v.length - (i + 1))).foldl (sortInner i) v)[k]?
      = v[k]?) ∧
    (∀ k, i ≤ k → k < v.length → ∃ k1, i ≤ k1 ∧ k1 < v.length ∧
      ((List.range' (i + 1) (v.length - (i + 1))).foldl (sortInner i) v)[k]? = v[k1]?) ∧
    (∀ k x y, i < k →
      ((List.range' (i + 1) (v.length - (i + 1))).foldl (sortInner i) v)[i]? = some x →
      ((List.range' (i + 1) (v.length - (i + 1))).foldl (sortInner i) v)[k]? = some y →
      y.lineLength ≤ x.lineLength) := by
  have h := foldl_range'_induction
    (fun J (w : List (KeyLine F)) =>
      w.length = v.length ∧ w.Perm v ∧ (∀ k < i, w[k]? = v[k]?) ∧
      (∀ k, i ≤ k → k < v.length → ∃ k1, i ≤ k1 ∧ k1 < v.length ∧ w[k]? = v[k1]?) ∧
      (∀ k x y, i < k → k < J → w[i]? = some x → w[k]? = some y →
        y.lineLength ≤ x.lineLength))
    (sortInner i) (v.length - (i + 1)) (i + 1) v
    ⟨rfl, List.Perm.refl _, fun _ _ => rfl, fun k hk hlt => ⟨k, hk, hlt, rfl⟩,
      fun k x y h1 h2 => by omega⟩
    (fun j w hj hlt hP => sortInner_step v i j w (by omega) (by omega) hP)
  obtain ⟨h1, h2, h3, h4, h5⟩ := h
  refine ⟨h1, h2, h3, h4, ?_⟩
  intro k x y hik hx hy
  have hk : k < v.length := by
    rw [← h1]
    exact (List.getElem?_eq_some.mp hy).1
  exact h5 k x y hik (by omega) hx hy

/-- C22: for every list of detected key lines, the list after the sorting
loop of `extractFeaturesLSD` is a permutation of the input and is ordered by
non-increasing `lineLength` (the order of `lineLength` being total). -/
theorem sortByLineLength_sorted_perm {F : Type} [LinearOrder F]
    (cv_line : List (KeyLine F)) :
    (sortByLineLength cv_line).Perm cv_line ∧
    (sortByLineLength cv_line).Pairwise (fun a b => a.lineLength ≥ b.lineLength) := by
  have h := foldl_range'_induction
    (fun I (w : List (KeyLine F)) =>
      w.length = cv_line.length ∧ w.Perm cv_line ∧
      (∀ a b x y, a < I → a < b → w[a]? = some x → w[b]? = some y →
        y.lineLength ≤ x.lineLength))
    (fun v i => (List.range' (i + 1) (cv_line.length - (i + 1))).foldl (sortInner i) v)
    cv_line.length 0 cv_line
    ⟨rfl, List.Perm.refl _, fun a b x y h1 => by omega⟩
    (by
      intro i w _ hi hP
      obtain ⟨hlen, hperm, hsorted⟩ := hP
      have hi' : i < w.length := by omega
      have hloop := sortInner_loop w i hi'
      rw [hlen] at hloop
      obtain ⟨h1, h2, h3, h4, h5⟩ := hloop
      refine ⟨h1, h2.trans hperm, ?_⟩
      intro a b x y ha hab hx hy
      have hx : ((List.range' (i + 1) (cv_line.length - (i + 1))).foldl (sortInner i) w)[a]?
          = some x := hx
      have hy : ((List.range' (i + 1) (cv_line.length - (i + 1))).foldl (sortInner i) w)[b]?
          = some y := hy
      have hb : b < cv_line.length := by
        rw [← h1]
        exact (List.getElem?_eq_some.mp hy).1
      by_cases hai : a = i
      · subst hai
        exact h5 b x y hab hx hy
      · have ha' : a < i := by omega
        rw [h3 a ha'] at hx
        by_cases hbi : b < i
        · rw [h3 b hbi] at hy
          exact hsorted a b x y ha' hab hx hy
        · obtain ⟨k1, hk1, _, hk1e⟩ := h4 b (by omega) hb
          rw [hk1e] at hy
          exact hsorted a k1 x y ha' (by omega) hx hy)
  simp only [Nat.zero_add] at h
  have hfold : sortByLineLength cv_line =
      (List.range' 0 cv_line.length).foldl
        (fun v i => (List.range' (i + 1) (cv_line.length - (i + 1))).foldl (sortInner i) v)
        cv_line := by
    unfold sortByLineLength
    rw [List.range_eq_range']
  rw [hfold]
  obtain ⟨hlen, hperm, hsorted⟩ := h
  refine ⟨hperm, ?_⟩
  rw [List.pairwise_iff_getElem]
  intro a b ha hb hab
  exact hsorted a b _ _ (by omega) hab (List.getElem?_eq_getElem ha)
    (List.getElem?_eq_getElem hb)

end FeatureExtractionLSD

namespace FeatureExtractionLSD

/-! ## The selection loop -/

theorem sortByLineLength_length {F : Type} [LinearOrder F] (cv_line : List (KeyLine F)) :
    (sortByLineLength cv_line).length = cv_line.length := by
  unfold sortByLineLength
  rw [List.range_eq_range']
  have h := foldl_range'_induction
    (fun _ (w : List (KeyLine F)) => w.length = cv_line.length)
    (fun v i => (List.range' (i + 1) (cv_line.length - (i + 1))).foldl (sortInner i) v)
    cv_line.length 0 cv_line rfl
    (by
      intro i w _ _ hP
      have h2 := foldl_range'_induction
        (fun _ (u : List (KeyLine F)) => u.length = cv_line.length)
        (sortInner i) (cv_line.length - (i + 1)) (i + 1) w hP
        (fun j u _ _ hu => (sortInner_length i j u).trans hu)
      exact h2)
  exact h

/-- One turn of the selection loop, entered with `i < N` and `cont < nMax`
below `2^32`: `i` or `cont` advances, neither passes its bound, and the
features appended so far still carry the consecutive IDs from `init_ID`. -/
theorem selectBody_step {F : Type} (toInt : F → Int) (options : TOptions) (imgW imgH : Nat)
    (N nMax init_ID : Nat) (feats0 : List (CFeature F)) (kl : KeyLine F)
    (s : LoopState F) (app : List (CFeature F))
    (hN : N < 2 ^ 32) (hnMax : nMax ≤ N) (hi : s.i < N) (hcont : s.cont < nMax)
    (hfeats : s.feats = feats0 ++ app) (hlen : app.length ≤ s.cont)
    (hids : app.map (fun f => f.ID) = List.range' init_ID app.length)
    (hnext : s.nextID = init_ID + app.length) :
    ∃ app1 : List (CFeature F),
      (selectBody toInt options imgW imgH kl s).i ≤ N ∧
      (selectBody toInt options imgW imgH kl s).cont ≤ nMax ∧
      (selectBody toInt options imgW imgH kl s).feats = feats0 ++ app1 ∧
      app1.length ≤ (selectBody toInt options imgW imgH kl s).cont ∧
      app1.map (fun f => f.ID) = List.range' init_ID app1.length ∧
      (selectBody toInt options imgW imgH kl s).nextID = init_ID + app1.length ∧
      (N - (selectBody toInt options imgW imgH kl s).i)
        + (nMax - (selectBody toInt options imgW imgH kl s).cont) + 1
        ≤ (N - s.i) + (nMax - s.cont) := by
  have hi1 : (s.i + 1) % 2 ^ 32 = s.i + 1 := Nat.mod_eq_of_lt (by omega)
  have hc1 : (s.cont + 1) % 2 ^ 32 = s.cont + 1 := Nat.mod_eq_of_lt (by omega)
  unfold selectBody
  by_cases hoct : kl.octave = 0
  · simp only [hoct, if_true, hi1, hc1]
    by_cases hpatch : patchInImage options imgW imgH
        (Int.tdiv (toInt kl.startPointX + toInt kl.endPointX) 2)
        (Int.tdiv (toInt kl.startPointY + toInt kl.endPointY) 2) = false
    · simp only [hpatch, if_true]
      exact ⟨app, by omega, by omega, hfeats, hlen, hids, hnext, by omega⟩
    · have hp : patchInImage options imgW imgH
          (Int.tdiv (toInt kl.startPointX + toInt kl.endPointX) 2)
          (Int.tdiv (toInt kl.startPointY + toInt kl.endPointY) 2) = true := by
        simpa using hpatch
      simp only [hp, Bool.true_eq_false, if_false]
      refine ⟨app ++ [?ft], ?g1, ?g2, ?g3, ?g4, ?g5, ?g6, ?g7⟩
      case g3 =>
        rw [hfeats, List.append_assoc]
        exact rfl
      case g1 => omega
      case g2 => omega
      case g4 =>
        simp only [List.length_append, List.length_singleton]
        omega
      case g5 =>
        simp only [List.map_append, List.map_cons, List.map_nil, List.length_append,
          List.length_singleton, hids, hnext]
        rw [List.range'_concat]
        simp
      case g6 =>
        simp only [List.length_append, List.length_singleton, hnext]
        omega
      case g7 => omega
  · simp only [hoct, if_false, hc1]
    exact ⟨app, by omega, by omega, hfeats, by omega, hids, hnext, by omega⟩

/-- The selection loop ends: once the fuel exceeds `(N - i) + (nMax - cont)`
the result does not depend on it, and at the end at most `cont <= nMax`
features have been appended, with the consecutive IDs from `init_ID`. -/
theorem selectLoop_terminates {F : Type} (toInt : F → Int) (options : TOptions)
    (imgW imgH : Nat) (cv_line : List (KeyLine F)) (nMax init_ID : Nat)
    (feats0 : List (CFeature F)) (hN : cv_line.length < 2 ^ 32) (hnMax : nMax ≤ cv_line.length) :
    ∀ (m : Nat) (s : LoopState F) (app : List (CFeature F)),
      s.i ≤ cv_line.length → s.cont ≤ nMax → s.feats = feats0 ++ app →
      app.length ≤ s.cont → app.map (fun f => f.ID) = List.range' init_ID app.length →
      s.nextID = init_ID + app.length →
      (cv_line.length - s.i) + (nMax - s.cont) ≤ m →
      ∃ (s1 : LoopState F) (app1 : List (CFeature F)),
        s1.feats = feats0 ++ app1 ∧ app1.length ≤ nMax ∧
        app1.map (fun f => f.ID) = List.range' init_ID app1.length ∧
        ∀ fuel, m < fuel →
          selectLoop toInt options imgW imgH cv_line nMax fuel s = some s1 := by
  intro m
  induction m with
  | zero =>
    intro s app hi hc hfeats hlen hids _ hm
    refine ⟨s, app, hfeats, by omega, hids, ?_⟩
    intro fuel _
    have hcond : ¬ (s.cont ≠ nMax ∧ s.i ≠ cv_line.length) := by
      intro h
      omega
    unfold selectLoop
    simp only [hcond, if_false]
  | succ m ih =>
    intro s app hi hc hfeats hlen hids hnext hm
    by_cases hcond : s.cont ≠ nMax ∧ s.i ≠ cv_line.length
    · have hi' : s.i < cv_line.length := by omega
      have hc' : s.cont < nMax := by omega
      have hkl : cv_line[s.i]? = some cv_line[s.i] := List.getElem?_eq_getElem hi'
      obtain ⟨app1, h1, h2, h3, h4, h5, h6, h7⟩ :=
        selectBody_step toInt options imgW imgH cv_line.length nMax init_ID feats0
          cv_line[s.i] s app hN hnMax hi' hc' hfeats hlen hids hnext
      obtain ⟨s1, app2, g1, g2, g3, g4⟩ :=
        ih (selectBody toInt options imgW imgH cv_line[s.i] s) app1 h1 h2 h3 h4 h5 h6
          (by omega)
      refine ⟨s1, app2, g1, g2, g3, ?_⟩
      intro fuel hfuel
      obtain ⟨f, rfl⟩ : ∃ f, fuel = f + 1 := ⟨fuel - 1, by omega⟩
      unfold selectLoop
      simp only [hkl]
      rw [if_pos hcond]
      exact g4 f (by omega)
    · refine ⟨s, app, hfeats, by omega, hids, ?_⟩
      intro fuel _
      unfold selectLoop
      simp only [hcond, if_false]

/-- C23: for every input with fewer than `2^32` detected lines, the selection
loop of `extractFeaturesLSD` terminates (every fuel above `2 N` gives the same
result) and appends at most `nMax` features, where `nMax` is
`nDesiredFeatures` if that is not 0 and below the number `N` of detected
lines, and `N` otherwise; the appended features carry the consecutive IDs
`init_ID`, `init_ID + 1`, ... in the order in which they are appended. -/
theorem extractFeaturesLSD_terminates {F : Type} [LinearOrder F] (toInt : F → Int)
    (options : TOptions) (imgW imgH : Nat) (detected : List (KeyLine F))
    (feats : List (CFeature F)) (init_ID nDesiredFeatures : Nat)
    (hN : detected.length < 2 ^ 32) :
    ∃ appended : List (CFeature F),
      (∀ fuel, 2 * detected.length < fuel →
        extractFeaturesLSD toInt options imgW imgH detected feats init_ID
          nDesiredFeatures fuel
          = some ((if options.addNewFeatures then feats else []) ++ appended)) ∧
      appended.length ≤
        (if nDesiredFeatures ≠ 0 ∧ detected.length > nDesiredFeatures
          then nDesiredFeatures else detected.length) ∧
      appended.map (fun f => f.ID) = List.range' init_ID appended.length := by
  have hlen := sortByLineLength_length detected
  have hnmax : nMaxOf (sortByLineLength detected).length nDesiredFeatures =
      (if nDesiredFeatures ≠ 0 ∧ detected.length > nDesiredFeatures
        then nDesiredFeatures else detected.length) := by
    unfold nMaxOf
    rw [hlen, Nat.mod_eq_of_lt hN]
  have hle : nMaxOf (sortByLineLength detected).length nDesiredFeatures
      ≤ (sortByLineLength detected).length := by
    rw [hnmax, hlen]
    split_ifs with h
    · omega
    · exact Nat.le_refl _
  obtain ⟨s1, app1, g1, g2, g3, g4⟩ :=
    selectLoop_terminates toInt options imgW imgH (sortByLineLength detected)
      (nMaxOf (sortByLineLength detected).length nDesiredFeatures) init_ID
      (if options.addNewFeatures then feats else []) (by rw [hlen]; exact hN) hle
      (2 * detected.length)
      { i := 0, cont := 0, nextID := init_ID
        feats := if options.addNewFeatures then feats else [] }
      [] (Nat.zero_le _) (Nat.zero_le _) (by simp) (Nat.le_refl _) (by simp) (by simp)
      (by
        simp only [Nat.sub_zero]
        rw [hlen] at hle ⊢
        omega)
  refine ⟨app1, ?_, ?_, g3⟩
  · intro fuel hfuel
    unfold extractFeaturesLSD
    simp only [g4 fuel hfuel, Option.map_some', g1]
  · rw [← hnmax]
    exact g2

/-- Witness of C23: three detected lines, at most one feature asked for. -/
theorem extractFeaturesLSD_terminates_witness :
    [exampleLine0, exampleLine1, exampleLine2].length < 2 ^ 32 ∧
    ∃ appended : List (CFeature Int),
      (∀ fuel, 2 * [exampleLine0, exampleLine1, exampleLine2].length < fuel →
        extractFeaturesLSD id { patchSize := 3, addNewFeatures := false } 100 100
          [exampleLine0, exampleLine1, exampleLine2] [] 5 1 fuel
          = some ((if ({ patchSize := 3, addNewFeatures := false } : TOptions).addNewFeatures
              then [] else []) ++ appended)) ∧
      appended.length ≤
        (if 1 ≠ 0 ∧ [exampleLine0, exampleLine1, exampleLine2].length > 1
          then 1 else [exampleLine0, exampleLine1, exampleLine2].length) ∧
      appended.map (fun f => f.ID) = List.range' 5 appended.length :=
  ⟨by decide,
    extractFeaturesLSD_terminates id { patchSize := 3, addNewFeatures := false } 100 100
      [exampleLine0, exampleLine1, exampleLine2] [] 5 1 (by decide)⟩

/-- C24: the claim does not hold on the code.  With `nDesiredFeatures = 0` and
`addNewFeatures` false, the octave-0 line `exampleLine0`, whose patch lies in
the image, yields a feature when it is detected alone, and none when the
longer line `exampleLine1` of octave 1 is detected with it: the loop stays on
the line of octave 1 until `cont` reaches `nMax`. -/
theorem extractFeaturesLSD_stalls_at_other_octave :
    exampleLine0.octave = 0 ∧ exampleLine1.octave = 1 ∧
    patchInImage { patchSize := 3, addNewFeatures := false } 100 100 15 10 = true ∧
    (extractFeaturesLSD id { patchSize := 3, addNewFeatures := false } 100 100
      [exampleLine0] [] 5 0 10).map (fun feats => feats.map (fun f => (f.ID, f.x, f.y)))
      = some [(5, 15, 10)] ∧
    extractFeaturesLSD id { patchSize := 3, addNewFeatures := false } 100 100
      [exampleLine0, exampleLine1] [] 5 0 10 = some [] ∧
    extractFeaturesLSD id { patchSize := 3, addNewFeatures := false } 100 100
      [exampleLine1, exampleLine0] [] 5 0 10 = some [] := by
  decide

end FeatureExtractionLSD
